import Mathlib

/-!
# Verification of the print dispatcher

Shallow embedding of `print_dispatcher.go` and `dry_printer.go`.

* Every goroutine is a small state machine whose program counter names the next
  blocking statement of the Go source; one `Event` executes one statement of one
  goroutine, so a list of events is an interleaving.
* Buffered channels are lists bounded by their capacity.  `fileQueue` is the one channel
  with a receiver that does not block (the drain loop of `Stop`), so its parked senders
  are explicit: a send on the full buffer parks the caller, and a receive moves the job of
  the oldest parked caller into the buffer in the same operation.  A sender on the other
  buffered channels waits at its program point until there is room.
* A goroutine at the program point of a blocking operation may or may not have parked
  yet.  A send that finds the coordinator waiting in its `select` is the send into the
  buffer followed by the coordinator's receive.
* An unbuffered channel is a hand-off: a sender parks its value, a receiver takes the
  oldest parked value, and the sender resumes once its value has been taken.  A nil
  channel never lets anybody proceed.
* The printer is an interface in the source, so the dispatcher is parametric in a
  `Printer`: a shared state together with the step functions of a `Print` call and of a
  `Cancel` call.
* Timers (`time.After`) are abstracted to a branch that may be taken at any moment.
* The state is observed from the moment the coordinator enters its loop: the
  construction of `ctx` and the seeding of `printQuota` (lines 55-61) touch only
  variables local to the coordinator.
* A Go run-time panic is recorded in the frame of the caller that raises it.

The definitions come first: the embedding of the two source files, the predicates the
statements use, and the concrete states and interleavings.  The theorems follow.
-/

namespace PrintDispatcher

/-! ## Data model -/

/-- A print job: the three observable attributes of a `PrinterFile`; the duration is a
`time.Duration`, a count of nanoseconds. -/
structure PrinterFile where
  paperSize : Int
  typeName : String
  printDuration : Int
deriving DecidableEq, Repr

/-- A Go slice of files; `none` is the nil slice. -/
abbrev Files := Option (List PrinterFile)

/-- The elements of a slice (what `range` visits). -/
def sliceElems : Files → List PrinterFile
  | none => []
  | some l => l

/-- Go `len`. -/
def sliceLen (s : Files) : Nat := (sliceElems s).length

/-- Go `append(s, f)`. -/
def sliceAppend (s : Files) (f : PrinterFile) : Files := some (sliceElems s ++ [f])

/-- An unbuffered channel: the values of the parked senders, oldest first, and the number
of senders whose value has been taken and who have not resumed yet. -/
structure Chan (α : Type) where
  sendq : List α
  taken : Nat
deriving DecidableEq, Repr

/-- A freshly made unbuffered channel. -/
def Chan.make {α : Type} : Chan α := { sendq := [], taken := 0 }

/-- A sender arrives and parks its value. -/
def Chan.post {α : Type} (c : Chan α) (v : α) : Chan α := { c with sendq := c.sendq ++ [v] }

/-- A receiver takes the oldest parked value; `none` when no sender is parked. -/
def Chan.recv {α : Type} (c : Chan α) : Option (α × Chan α) :=
  match c.sendq with
  | [] => none
  | v :: q => some (v, { sendq := q, taken := c.taken + 1 })

/-- A parked sender resumes once a value has been taken. -/
def Chan.resume {α : Type} (c : Chan α) : Option (Chan α) :=
  if 0 < c.taken then some { c with taken := c.taken - 1 } else none

/-- What a call does next: stay inside at a new program point, or return. -/
inductive Next (φ ρ : Type) where
  | cont (fr : φ)
  | ret (r : ρ)
deriving DecidableEq, Repr

/-- The `Printer` interface: shared state `σ`, program points `π` of a `Print` call and
`κ` of a `Cancel` call.  A step function returns `none` when the call is blocked; the
number selects among the branches of a `select`.  `Print` returns a Go `error`
(`none` is nil). -/
structure Printer (σ π κ : Type) where
  printEnter : π
  print : σ → PrinterFile → π → Nat → Option (σ × Next π (Option String))
  cancelEnter : κ
  cancel : σ → κ → Nat → Option (σ × Next κ (Option PrinterFile))

/-! ## The reference worker (`dry_printer.go`) -/

/-- The `DryPrinter` struct; a `none` channel is a nil channel. -/
structure DryPrinter where
  cancelCh : Chan Unit
  cancelledFile : Option (Chan PrinterFile)
deriving DecidableEq, Repr

/-- `NewDryPrinter` makes `cancelCh` only: `cancelledFile` keeps its zero value, nil. -/
def NewDryPrinter : DryPrinter := { cancelCh := Chan.make, cancelledFile := none }

/-- Program points of `DryPrinter.Print`: at the `select`; about to send on
`cancelledFile`; parked in that send until the receiver has taken the file. -/
inductive DryPrintPc where
  | select
  | sendFile
  | sentFile
deriving DecidableEq, Repr

/-- Program points of `DryPrinter.Cancel`: about to send on `cancelCh`; parked in that
send until a receiver has taken the signal; at the receive from `cancelledFile`. -/
inductive DryCancelPc where
  | sendCancel
  | sentCancel
  | recvFile
deriving DecidableEq, Repr

/-- `DryPrinter.Print`: at the `select`, branch 0 is the timer and branch 1 the receive
from `cancelCh`; afterwards the send on `cancelledFile` and the error return. -/
def DryPrinter.Print (p : DryPrinter) (file : PrinterFile) :
    DryPrintPc → Nat → Option (DryPrinter × Next DryPrintPc (Option String))
  | .select, 0 => some (p, .ret none)
  | .select, 1 =>
    match p.cancelCh.recv with
    | some (_, ch) => some ({ p with cancelCh := ch }, .cont .sendFile)
    | none => none
  | .select, _ => none
  | .sendFile, _ =>
    match p.cancelledFile with
    | none => none
    | some ch => some ({ p with cancelledFile := some (ch.post file) }, .cont .sentFile)
  | .sentFile, _ =>
    match p.cancelledFile with
    | none => none
    | some ch =>
      match ch.resume with
      | some ch' => some ({ p with cancelledFile := some ch' }, .ret (some "print has been canceled"))
      | none => none

/-- `DryPrinter.Cancel`: the send on `cancelCh`, then the receive from `cancelledFile`. -/
def DryPrinter.Cancel (p : DryPrinter) :
    DryCancelPc → Nat → Option (DryPrinter × Next DryCancelPc (Option PrinterFile))
  | .sendCancel, _ => some ({ p with cancelCh := p.cancelCh.post () }, .cont .sentCancel)
  | .sentCancel, _ =>
    match p.cancelCh.resume with
    | some ch => some ({ p with cancelCh := ch }, .cont .recvFile)
    | none => none
  | .recvFile, _ =>
    match p.cancelledFile with
    | none => none
    | some ch =>
      match ch.recv with
      | some (f, ch') => some ({ p with cancelledFile := some ch' }, .ret (some f))
      | none => none

/-- The reference worker as a `Printer`. -/
def dryPrinter : Printer DryPrinter DryPrintPc DryCancelPc where
  printEnter := .select
  print := DryPrinter.Print
  cancelEnter := .sendCancel
  cancel := DryPrinter.Cancel

/-! ## The dispatcher (`print_dispatcher.go`) -/

/-- The fields of `defaultPrintDispatcher`.  The buffered channel `fileQueue` is its
buffer (capacity 10), the callers parked in a send on the full buffer, oldest first, each
with its index and its job (`sendq`), and the parked callers whose job a receiver has
moved into the buffer and who have not resumed yet (`woken`).  `controlQueue` is
unbuffered, so only its closed flag is state (its parked senders are the callers
themselves). -/
structure Disp where
  fileQueue : List PrinterFile
  sendq : List (Nat × PrinterFile)
  woken : List Nat
  controlClosed : Bool
  stopped : Int
  notPrintedFiles : Files
deriving DecidableEq, Repr

/-- Go run-time panics the dispatcher can raise. -/
inductive Panic where
  | divideByZero
  | sendOnClosedChannel
  | closeOfClosedChannel
deriving DecidableEq, Repr

/-- Conversion to `int64`: two's complement wrap-around. -/
def wrap64 (x : Int) : Int := (x + 9223372036854775808) % 18446744073709551616 - 9223372036854775808

/-- The loop `for _, file := range files { sum += file.PrintDuration() }`. -/
def sumDurations (files : List PrinterFile) : Int :=
  files.foldl (fun sum file => wrap64 (sum + file.printDuration)) 0

/-- Lines 166-172 of `CalcAvgPrintDuration`: the computation on the snapshot returned by
`PrintedFile`.  Go integer division truncates toward zero and panics on a zero divisor;
the divisor is a length, so the quotient cannot overflow. -/
def avgOfFiles (files : Files) : Except Panic Int :=
  let count : Int := sliceLen files
  let sum := sumDurations (sliceElems files)
  if count = 0 then .error .divideByZero else .ok (Int.tdiv sum count)

/-- The program points of a caller inside a public method.  `printParked` is a `Print`
parked in its send on the full `fileQueue`.  `inStop` marks the `Cancel` that `Stop`
calls; `avg` marks the `PrintedFile` that `CalcAvgPrintDuration` calls; `buf`
is the buffer of the one-slot reply channel `printedFiles`. -/
inductive Frame where
  | printLoad (file : PrinterFile)
  | printSend (file : PrinterFile)
  | printParked (file : PrinterFile)
  | printRet
  | cancelLoad (inStop : Bool)
  | cancelSend (inStop : Bool)
  | cancelRecv (inStop : Bool)
  | cancelRet (r : Option PrinterFile)
  | printedLoad (avg : Bool)
  | printedSend (avg : Bool)
  | printedRecv (avg : Bool) (buf : Option Files)
  | printedRet (r : Files)
  | avgRet (r : Int)
  | stopCAS
  | stopClose
  | stopMake
  | stopFetch
  | stopRet (r : Files)
  | panicked (p : Panic)
deriving DecidableEq, Repr

/-- Where `Cancel` continues once it has its result: back in `Stop` (which discards
it), or at its own return. -/
def cancelDone (inStop : Bool) (r : Option PrinterFile) : Frame :=
  if inStop then .stopClose else .cancelRet r

/-- Where `PrintedFile` continues once it has its result: the computation of
`CalcAvgPrintDuration`, or its own return. -/
def printedDone (avg : Bool) (files : Files) : Frame :=
  if avg then
    match avgOfFiles files with
    | .ok v => .avgRet v
    | .error p => .panicked p
  else .printedRet files

/-- A receive from `fileQueue`: the oldest job leaves the buffer; when a caller is parked
in a send on the full buffer, the job of the oldest such caller enters the buffer in the
same operation and that caller is made runnable.  `none` when the buffer is empty. -/
def recvFileQueue (d : Disp) : Option (PrinterFile × Disp) :=
  match d.fileQueue with
  | [] => none
  | file :: q =>
    match d.sendq with
    | [] => some (file, { d with fileQueue := q })
    | (i, g) :: rest =>
      some (file, { d with fileQueue := q ++ [g], sendq := rest, woken := d.woken ++ [i] })

/-- One statement of caller `i` that needs no partner goroutine; `none` when the caller
is blocked or has returned.  A send on the full `fileQueue` parks the caller; it resumes
once a receiver has moved its job into the buffer. -/
def localStep (d : Disp) (i : Nat) : Frame → Option (Disp × Frame)
  | .printLoad file => if d.stopped = 0 then some (d, .printSend file) else some (d, .printRet)
  | .printSend file =>
    if d.fileQueue.length < 10 then some ({ d with fileQueue := d.fileQueue ++ [file] }, .printRet)
    else some ({ d with sendq := d.sendq ++ [(i, file)] }, .printParked file)
  | .printParked _ =>
    if i ∈ d.woken then some ({ d with woken := d.woken.erase i }, .printRet) else none
  | .cancelLoad k => if d.stopped = 1 then some (d, cancelDone k none) else some (d, .cancelSend k)
  | .cancelSend _ => if d.controlClosed then some (d, .panicked .sendOnClosedChannel) else none
  | .printedLoad a => if d.stopped = 1 then some (d, printedDone a none) else some (d, .printedSend a)
  | .printedSend _ => if d.controlClosed then some (d, .panicked .sendOnClosedChannel) else none
  | .printedRecv a (some files) => some (d, printedDone a files)
  | .stopCAS =>
    if d.stopped = 0 then some ({ d with stopped := 1 }, .cancelLoad true)
    else some (d, .stopRet d.notPrintedFiles)
  | .stopClose =>
    if d.controlClosed then some (d, .panicked .closeOfClosedChannel)
    else some ({ d with controlClosed := true }, .stopMake)
  | .stopMake => some ({ d with notPrintedFiles := some [] }, .stopFetch)
  | .stopFetch =>
    match recvFileQueue d with
    | some (file, d') =>
      some ({ d' with notPrintedFiles := sliceAppend d.notPrintedFiles file }, .stopFetch)
    | none => some (d, .stopRet d.notPrintedFiles)
  | _ => none

/-- The coordinator's `context`. -/
structure Ctx (σ : Type) where
  printer : σ
  printedCh : List PrinterFile
  printed : Files
  printQuota : Nat
deriving DecidableEq, Repr

/-- Program points of the coordinator goroutine: in the `select`; inside
`ctx.printer.Cancel()` for the `Cancel` call of `caller`; at the send of its result on
`currentFile`; at the send of `ctx.printed` on `printedFiles`; returned. -/
inductive CoordPc (κ : Type) where
  | select
  | cancelAction (caller : Nat) (fr : κ)
  | cancelReply (caller : Nat) (r : Option PrinterFile)
  | printedAction (caller : Nat)
  | exited
deriving DecidableEq, Repr

/-- Program points of a helper goroutine (lines 66-76): at the receive from
`printQuota`; inside `ctx.printer.Print(file)`; at the send on `printedCh`; at the
deferred send on `printQuota`; finished. -/
inductive HelperPc (π : Type) where
  | waitQuota
  | printing (fr : π)
  | report
  | release
  | done
deriving DecidableEq, Repr

/-- The whole program: dispatcher fields, coordinator context and program counter,
helper goroutines in spawn order, and callers in call order. -/
structure Sys (σ π κ : Type) where
  disp : Disp
  ctx : Ctx σ
  coord : CoordPc κ
  helpers : List (PrinterFile × HelperPc π)
  clients : List Frame
deriving DecidableEq, Repr

/-- The public methods. -/
inductive Call where
  | Print (file : PrinterFile)
  | Cancel
  | PrintedFile
  | Stop
  | CalcAvgPrintDuration
deriving DecidableEq, Repr

/-- The first program point of a method. -/
def Call.entry : Call → Frame
  | .Print file => .printLoad file
  | .Cancel => .cancelLoad false
  | .PrintedFile => .printedLoad false
  | .Stop => .stopCAS
  | .CalcAvgPrintDuration => .printedLoad true

/-- One scheduling decision. -/
inductive Event where
  | call (c : Call)
  | client (i : Nat)
  | recvFile
  | recvPrinted
  | recvControl
  | action (alt : Nat)
  | helper (i : Nat) (alt : Nat)
deriving DecidableEq, Repr

/-- `NewPrintDispatcher(printer)`, observed when the coordinator enters its loop. -/
def NewPrintDispatcher {σ π κ : Type} (printer : σ) : Sys σ π κ where
  disp := { fileQueue := [], sendq := [], woken := [], controlClosed := false, stopped := 0,
            notPrintedFiles := none }
  ctx := { printer := printer, printedCh := [], printed := none, printQuota := 1 }
  coord := .select
  helpers := []
  clients := []

/-- A caller executes its next statement.  A send on `controlQueue` is taken by the
coordinator when it sits in its `select`; the coordinator then starts the action. -/
def clientStep {σ π κ : Type} (P : Printer σ π κ) (s : Sys σ π κ) (i : Nat) : Option (Sys σ π κ) :=
  match s.clients[i]? with
  | none => none
  | some fr =>
    match fr, s.coord, s.disp.controlClosed with
    | .cancelSend k, .select, false =>
      some { s with coord := .cancelAction i P.cancelEnter, clients := s.clients.set i (.cancelRecv k) }
    | .printedSend a, .select, false =>
      some { s with coord := .printedAction i, clients := s.clients.set i (.printedRecv a none) }
    | fr, _, _ =>
      match localStep s.disp i fr with
      | some (d, fr') => some { s with disp := d, clients := s.clients.set i fr' }
      | none => none

/-- The coordinator inside a control action. -/
def actionStep {σ π κ : Type} (P : Printer σ π κ) (s : Sys σ π κ) (alt : Nat) : Option (Sys σ π κ) :=
  match s.coord with
  | .cancelAction c fr =>
    match P.cancel s.ctx.printer fr alt with
    | some (p, .cont fr') => some { s with ctx := { s.ctx with printer := p }, coord := .cancelAction c fr' }
    | some (p, .ret r) => some { s with ctx := { s.ctx with printer := p }, coord := .cancelReply c r }
    | none => none
  | .cancelReply c r =>
    match s.clients[c]? with
    | some (.cancelRecv k) => some { s with coord := .select, clients := s.clients.set c (cancelDone k r) }
    | _ => none
  | .printedAction c =>
    match s.clients[c]? with
    | some (.printedRecv a none) =>
      some { s with coord := .select, clients := s.clients.set c (.printedRecv a (some s.ctx.printed)) }
    | _ => none
  | _ => none

/-- A helper goroutine executes its next statement. -/
def helperStep {σ π κ : Type} (P : Printer σ π κ) (s : Sys σ π κ) (i alt : Nat) : Option (Sys σ π κ) :=
  match s.helpers[i]? with
  | some (file, .waitQuota) =>
    if 0 < s.ctx.printQuota then
      some { s with ctx := { s.ctx with printQuota := s.ctx.printQuota - 1 },
                    helpers := s.helpers.set i (file, .printing P.printEnter) }
    else none
  | some (file, .printing fr) =>
    match P.print s.ctx.printer file fr alt with
    | some (p, .cont fr') =>
      some { s with ctx := { s.ctx with printer := p }, helpers := s.helpers.set i (file, .printing fr') }
    | some (p, .ret none) =>
      some { s with ctx := { s.ctx with printer := p }, helpers := s.helpers.set i (file, .report) }
    | some (p, .ret (some _)) =>
      some { s with ctx := { s.ctx with printer := p }, helpers := s.helpers.set i (file, .release) }
    | none => none
  | some (file, .report) =>
    if s.ctx.printedCh.length < 1 then
      some { s with ctx := { s.ctx with printedCh := s.ctx.printedCh ++ [file] },
                    helpers := s.helpers.set i (file, .release) }
    else none
  | some (file, .release) =>
    if s.ctx.printQuota < 1 then
      some { s with ctx := { s.ctx with printQuota := s.ctx.printQuota + 1 },
                    helpers := s.helpers.set i (file, .done) }
    else none
  | _ => none

/-- One step of the program; `none` when the chosen goroutine cannot move. -/
def step {σ π κ : Type} (P : Printer σ π κ) (s : Sys σ π κ) : Event → Option (Sys σ π κ)
  | .call c => some { s with clients := s.clients ++ [c.entry] }
  | .client i => clientStep P s i
  | .recvFile =>
    match s.coord, recvFileQueue s.disp with
    | .select, some (file, d) =>
      some { s with disp := d, helpers := s.helpers ++ [(file, .waitQuota)] }
    | _, _ => none
  | .recvPrinted =>
    match s.coord, s.ctx.printedCh with
    | .select, file :: r =>
      some { s with ctx := { s.ctx with printedCh := r, printed := sliceAppend s.ctx.printed file } }
    | _, _ => none
  | .recvControl =>
    match s.coord with
    | .select => if s.disp.controlClosed then some { s with coord := .exited } else none
    | _ => none
  | .action alt => actionStep P s alt
  | .helper i alt => helperStep P s i alt

/-- An interleaving: the events are executed in order; `none` when one of them is not
enabled. -/
def run {σ π κ : Type} (P : Printer σ π κ) (s : Sys σ π κ) : List Event → Option (Sys σ π κ)
  | [] => some s
  | e :: t =>
    match step P s e with
    | some s' => run P s' t
    | none => none

/-- The state after a caller has entered a method at program point `fr`. -/
def spawn {σ π κ : Type} (s : Sys σ π κ) (fr : Frame) : Sys σ π κ :=
  { s with clients := s.clients ++ [fr] }

/-! ## Predicates on program points -/

/-- A frame that is a send on `controlQueue`. -/
def Frame.isSend : Frame → Bool
  | .cancelSend _ => true
  | .printedSend _ => true
  | _ => false

/-! ## Mutual exclusion -/

/-- A helper that has taken the permit of `printQuota` and not yet returned it. -/
def holdsPermit {π : Type} : HelperPc π → Bool
  | .printing _ => true
  | .report => true
  | .release => true
  | _ => false

/-- A helper inside `Printer.Print`. -/
def insidePrint {π : Type} : HelperPc π → Bool
  | .printing _ => true
  | _ => false

/-- The number of helpers holding the permit. -/
def holders {σ π κ : Type} (s : Sys σ π κ) : Nat := s.helpers.countP (fun h => holdsPermit h.2)

/-- The number of helpers inside `Printer.Print`. -/
def printing {σ π κ : Type} (s : Sys σ π κ) : Nat := s.helpers.countP (fun h => insidePrint h.2)

/-! ## `Cancel` while the worker is idle -/

/-- A caller that holds a result produced by the coordinator. -/
def Frame.answered : Frame → Bool
  | .printedRecv _ (some _) => true
  | .printedRet (some _) => true
  | .avgRet _ => true
  | .cancelRet (some _) => true
  | _ => false

/-- The coordinator is parked in `DryPrinter.Cancel` at the send on `cancelCh`, no helper
goroutine exists, and nothing has been completed or answered. -/
def CancelStuck (s : Sys DryPrinter DryPrintPc DryCancelPc) : Prop :=
  s.coord = .cancelAction 0 .sentCancel ∧ s.helpers = [] ∧ s.ctx.printer.cancelCh.taken = 0 ∧
    s.ctx.printed = none ∧ ∀ fr ∈ s.clients, fr.answered = false

/-! ## Where the submitted jobs are -/

/-- A helper that still owns its job: it has neither handed it to `printedCh` nor given
it up after an error of `Printer.Print`. -/
def busy {π : Type} : HelperPc π → Bool
  | .waitQuota => true
  | .printing _ => true
  | .report => true
  | _ => false

/-- The number of copies of job `j` the program holds: in the pending queue, in the list
cached by `Stop`, with a busy helper, in the completion channel, in the completed list. -/
def copies {σ π κ : Type} (j : PrinterFile) (s : Sys σ π κ) : Nat :=
  s.disp.fileQueue.count j + (sliceElems s.disp.notPrintedFiles).count j +
    s.helpers.countP (fun h => busy h.2 && decide (h.1 = j)) +
    s.ctx.printedCh.count j + (sliceElems s.ctx.printed).count j

/-- The job that a receive from `fileQueue` moves from the oldest parked caller into the
buffer. -/
def handedOver (d : Disp) : List PrinterFile :=
  match d.fileQueue, d.sendq with
  | _ :: _, (_, g) :: _ => [g]
  | _, _ => []

/-- The job a step accepts, that is, puts into the buffer of `fileQueue`: the send of a
`Print` call that finds room, or the receive, by `Stop` or by the coordinator, that moves
the job of a parked `Print` call into the buffer. -/
def accepts {σ π κ : Type} (s : Sys σ π κ) : Event → List PrinterFile
  | .client i =>
    match s.clients[i]? with
    | some (.printSend file) => if s.disp.fileQueue.length < 10 then [file] else []
    | some .stopFetch => handedOver s.disp
    | _ => []
  | .recvFile => handedOver s.disp
  | _ => []

/-- The job a step drops: `Printer.Print` returns an error to the helper. -/
def drops {σ π κ : Type} (P : Printer σ π κ) (s : Sys σ π κ) : Event → List PrinterFile
  | .helper i alt =>
    match s.helpers[i]? with
    | some (file, .printing fr) =>
      match P.print s.ctx.printer file fr alt with
      | some (_, .ret (some _)) => [file]
      | _ => []
    | _ => []
  | _ => []

/-- The jobs accepted along an interleaving, in order. -/
def acceptedAlong {σ π κ : Type} (P : Printer σ π κ) (s : Sys σ π κ) : List Event → List PrinterFile
  | [] => []
  | e :: t =>
    match step P s e with
    | some s' => accepts s e ++ acceptedAlong P s' t
    | none => []

/-- The jobs dropped along an interleaving, in order. -/
def droppedAlong {σ π κ : Type} (P : Printer σ π κ) (s : Sys σ π κ) : List Event → List PrinterFile
  | [] => []
  | e :: t =>
    match step P s e with
    | some s' => drops P s e ++ droppedAlong P s' t
    | none => []

/-- A scheduling decision that is a new call of a public method. -/
def Event.isCall : Event → Bool
  | .call _ => true
  | _ => false

/-- No goroutine can move: every caller, the coordinator and every helper is blocked or
has finished. -/
def Quiescent {σ π κ : Type} (P : Printer σ π κ) (s : Sys σ π κ) : Prop :=
  ∀ e : Event, e.isCall = false → step P s e = none

/-- The three places the jobs are to be found in: the completed list, the list returned
by `Stop`, the result of a `Cancel` call. -/
def Reported {σ π κ : Type} (s : Sys σ π κ) (j : PrinterFile) : Prop :=
  j ∈ sliceElems s.ctx.printed ∨ j ∈ sliceElems s.disp.notPrintedFiles ∨
    Frame.cancelRet (some j) ∈ s.clients

/-- The job of the tests. -/
def testDocument : PrinterFile := { paperSize := 42, typeName := "test document", printDuration := 0 }

/-- One job is submitted, handed to a helper and printed; the helper puts it into
`printedCh` and returns the permit.  Then `Stop` runs, and the coordinator, choosing
among its ready cases, takes the closed `controlQueue` and exits. -/
def lostTrace : List Event :=
  [.call (.Print testDocument), .client 0, .client 0, .recvFile, .helper 0 0, .helper 0 0,
   .helper 0 0, .helper 0 0, .call .Stop, .client 1, .client 1, .client 1, .client 1, .client 1,
   .recvControl]

/-- The state at the end of `lostTrace`. -/
def lostState : Sys DryPrinter DryPrintPc DryCancelPc where
  disp := { fileQueue := [], sendq := [], woken := [], controlClosed := true, stopped := 1,
            notPrintedFiles := some [] }
  ctx := { printer := NewDryPrinter, printedCh := [testDocument], printed := none, printQuota := 1 }
  coord := .exited
  helpers := [(testDocument, .done)]
  clients := [.printRet, .stopRet (some [])]

/-- A caller inside the `Stop` that won the compare-and-swap, before the `make`. -/
def preMake : Frame → Bool
  | .cancelLoad true => true
  | .cancelSend true => true
  | .cancelRecv true => true
  | .stopClose => true
  | .stopMake => true
  | _ => false

/-- A caller inside the drain loop of `Stop`. -/
def isFetch : Frame → Bool
  | .stopFetch => true
  | _ => false

/-- Only one caller ever wins the compare-and-swap of `Stop`: at most one caller is
between the swap and the return, `notPrintedFiles` is nil until that caller executes
`make`, and nobody is there while `stopped = 0`. -/
def StopOnce {σ π κ : Type} (s : Sys σ π κ) : Prop :=
  (s.disp.notPrintedFiles ≠ none → s.clients.countP preMake = 0) ∧
  s.clients.countP preMake + s.clients.countP isFetch ≤ 1 ∧
  (s.disp.stopped = 0 →
    s.clients.countP preMake = 0 ∧ s.clients.countP isFetch = 0 ∧ s.disp.notPrintedFiles = none)

/-! ## `Cancel` of the job in flight -/

/-- The first job of the average test: one second. -/
def jobA : PrinterFile := { paperSize := 42, typeName := "first", printDuration := 1000000000 }

/-- The second job of the average test: two seconds. -/
def jobB : PrinterFile := { paperSize := 42, typeName := "second", printDuration := 2000000000 }

/-- The third job of the average test, which is not printed. -/
def jobC : PrinterFile := { paperSize := 42, typeName := "not printed", printDuration := 0 }

/-- Three jobs are submitted; the coordinator hands the first to a helper, which takes
the permit and enters `Print`. -/
def busyTrace : List Event :=
  [.call (.Print jobA), .client 0, .client 0, .call (.Print jobB), .client 1, .client 1,
   .call (.Print jobC), .client 2, .client 2, .recvFile, .helper 0 0]

/-- The state at the end of `busyTrace`: one job in flight, two pending. -/
def busyState : Sys DryPrinter DryPrintPc DryCancelPc where
  disp := { fileQueue := [jobB, jobC], sendq := [], woken := [], controlClosed := false, stopped := 0,
            notPrintedFiles := none }
  ctx := { printer := NewDryPrinter, printedCh := [], printed := none, printQuota := 0 }
  coord := .select
  helpers := [(jobA, .printing .select)]
  clients := [.printRet, .printRet, .printRet]

/-- The state after `Stop` has run on `busyState`. -/
def stoppedState : Sys DryPrinter DryPrintPc DryCancelPc where
  disp := { fileQueue := [], sendq := [], woken := [], controlClosed := true, stopped := 1,
            notPrintedFiles := some [jobB, jobC] }
  ctx := { printer := NewDryPrinter, printedCh := [], printed := none, printQuota := 0 }
  coord := .select
  helpers := [(jobA, .printing .select)]
  clients := [.printRet, .printRet, .printRet, .stopRet (some [jobB, jobC])]

/-- The state of the average test: the jobs of one and two seconds are completed, the
third job is inside `Print`. -/
def avgState : Sys DryPrinter DryPrintPc DryCancelPc where
  disp := { fileQueue := [], sendq := [], woken := [], controlClosed := false, stopped := 0,
            notPrintedFiles := none }
  ctx := { printer := NewDryPrinter, printedCh := [], printed := some [jobA, jobB], printQuota := 0 }
  coord := .select
  helpers := [(jobA, .done), (jobB, .done), (jobC, .printing .select)]
  clients := [.printRet, .printRet, .printRet]

/-- After the `Cancel` on the fresh dispatcher, a `PrintedFile` call and a `Print` call
arrive: the first parks at its send on `controlQueue`, the second enqueues its job. -/
def stuckState : Sys DryPrinter DryPrintPc DryCancelPc where
  disp := { fileQueue := [testDocument], sendq := [], woken := [], controlClosed := false, stopped := 0,
            notPrintedFiles := none }
  ctx := { printer := { cancelCh := { sendq := [()], taken := 0 }, cancelledFile := none },
           printedCh := [], printed := none, printQuota := 1 }
  coord := .cancelAction 0 .sentCancel
  helpers := []
  clients := [.cancelRecv false, .printedSend false, .printRet]

/-- The `Stop` that won the compare-and-swap has returned `L`: the flag is set, `L` is
cached, and no caller is between the swap and the return of `Stop`. -/
def StopSettled {σ π κ : Type} (L : Files) (s : Sys σ π κ) : Prop :=
  s.disp.stopped ≠ 0 ∧ s.disp.notPrintedFiles = L ∧
    s.clients.countP preMake = 0 ∧ s.clients.countP isFetch = 0

/-- After the `Stop` on `busyState` has returned, the job in flight is printed and
recorded by the coordinator, and a `Print` call returns at once. -/
def laterTrace : List Event :=
  [.helper 0 0, .helper 0 0, .helper 0 0, .recvPrinted, .call (.Print jobA), .client 4]

/-- The state at the end of `laterTrace`. -/
def laterState : Sys DryPrinter DryPrintPc DryCancelPc where
  disp := { fileQueue := [], sendq := [], woken := [], controlClosed := true, stopped := 1,
            notPrintedFiles := some [jobB, jobC] }
  ctx := { printer := NewDryPrinter, printedCh := [], printed := some [jobA], printQuota := 1 }
  coord := .select
  helpers := [(jobA, .done)]
  clients := [.printRet, .printRet, .printRet, .stopRet (some [jobB, jobC]), .printRet]

/-! ## Invariants of the running dispatcher -/

/-- The buffer of `fileQueue` never exceeds its capacity, and callers are parked in a
send only while the buffer is full. -/
def ChanOk (d : Disp) : Prop :=
  d.fileQueue.length ≤ 10 ∧ (d.sendq ≠ [] → d.fileQueue.length = 10)

/-- What every reachable state satisfies: `StopOnce`, the channel invariant, and
`controlQueue` is closed only once `stopped` is set. -/
def Consistent {σ π κ : Type} (s : Sys σ π κ) : Prop :=
  StopOnce s ∧ ChanOk s.disp ∧ (s.disp.controlClosed = true → s.disp.stopped ≠ 0)

/-! ## The list returned by `Stop` -/

/-- One job is pending.  A first `Stop` wins the compare-and-swap and closes
`controlQueue`; before it executes `make`, a second `Stop` is called, fails the
compare-and-swap and returns the cached list, which is still nil. -/
def racePrefix : List Event :=
  [.call (.Print jobA), .client 0, .client 0, .call .Stop, .client 1, .client 1, .client 1,
   .call .Stop, .client 2]

/-- The state at the end of `racePrefix`. -/
def raceMid : Sys DryPrinter DryPrintPc DryCancelPc where
  disp := { fileQueue := [jobA], sendq := [], woken := [], controlClosed := true, stopped := 1,
            notPrintedFiles := none }
  ctx := { printer := NewDryPrinter, printedCh := [], printed := none, printQuota := 1 }
  coord := .select
  helpers := []
  clients := [.printRet, .stopMake, .stopRet none]

/-- The first `Stop` executes `make`, drains the queue and returns; then a third `Stop`
is called and returns. -/
def raceSuffix : List Event :=
  [.client 1, .client 1, .client 1, .call .Stop, .client 3]

/-- The state at the end of `raceSuffix`. -/
def raceEnd : Sys DryPrinter DryPrintPc DryCancelPc where
  disp := { fileQueue := [], sendq := [], woken := [], controlClosed := true, stopped := 1,
            notPrintedFiles := some [jobA] }
  ctx := { printer := NewDryPrinter, printedCh := [], printed := none, printQuota := 1 }
  coord := .select
  helpers := []
  clients := [.printRet, .stopRet (some [jobA]), .stopRet none, .stopRet (some [jobA])]

/-- The `Stop` on `busyState` has drained the queue and is about to find it empty. -/
def drainedState : Sys DryPrinter DryPrintPc DryCancelPc where
  disp := { fileQueue := [], sendq := [], woken := [], controlClosed := true, stopped := 1,
            notPrintedFiles := some [jobB, jobC] }
  ctx := { printer := NewDryPrinter, printedCh := [], printed := none, printQuota := 0 }
  coord := .select
  helpers := [(jobA, .printing .select)]
  clients := [.printRet, .printRet, .printRet, .stopFetch]

/-! # Theorems -/

/-! ## Basic facts about the step functions -/

theorem set_concat_length {α : Type} (l : List α) (a b : α) : (l ++ [a]).set l.length b = l ++ [b] := by
  induction l with
  | nil => rfl
  | cons x l ih => simp [ih]

theorem clientStep_local {σ π κ : Type} (P : Printer σ π κ) (s : Sys σ π κ) (i : Nat) (fr : Frame)
    (hi : s.clients[i]? = some fr) (hfr : fr.isSend = false) :
    clientStep P s i =
      match localStep s.disp i fr with
      | some (d, fr') => some { s with disp := d, clients := s.clients.set i fr' }
      | none => none := by
  unfold clientStep
  rw [hi]
  cases fr <;> simp [Frame.isSend] at hfr ⊢

theorem step_spawn_local {σ π κ : Type} (P : Printer σ π κ) (s : Sys σ π κ) (fr : Frame)
    (hfr : fr.isSend = false) :
    step P (spawn s fr) (.client s.clients.length) =
      match localStep s.disp s.clients.length fr with
      | some (d, fr') => some (spawn { s with disp := d } fr')
      | none => none := by
  have h := clientStep_local P (spawn s fr) s.clients.length fr (by simp [spawn]) hfr
  simp only [step, h]
  cases hl : localStep (spawn s fr).disp s.clients.length fr with
  | none => simp [spawn] at hl ⊢; simp [hl]
  | some x => simp [spawn] at hl ⊢; simp [hl, set_concat_length]

/-- What a receive from `fileQueue` changes. -/
theorem recvFileQueue_spec (d d' : Disp) (file : PrinterFile)
    (h : recvFileQueue d = some (file, d')) :
    d'.stopped = d.stopped ∧ d'.notPrintedFiles = d.notPrintedFiles ∧
      d'.controlClosed = d.controlClosed ∧
      ∃ q, d.fileQueue = file :: q ∧ d'.fileQueue = q ++ handedOver d := by
  unfold recvFileQueue at h
  split at h
  · cases h
  · rename_i f q hq
    split at h
    · rename_i hs
      cases h
      exact ⟨rfl, rfl, rfl, q, hq, by simp [handedOver, hq, hs]⟩
    · rename_i i g rest hs
      cases h
      exact ⟨rfl, rfl, rfl, q, hq, by simp [handedOver, hq, hs]⟩

theorem recvFileQueue_none (d : Disp) (h : recvFileQueue d = none) : d.fileQueue = [] := by
  unfold recvFileQueue at h
  split at h
  · assumption
  · split at h <;> cases h

theorem run_cons {σ π κ : Type} (P : Printer σ π κ) (s : Sys σ π κ) (e : Event) (t : List Event) :
    run P s (e :: t) = match step P s e with
      | some s' => run P s' t
      | none => none := rfl

theorem step_call {σ π κ : Type} (P : Printer σ π κ) (s : Sys σ π κ) (c : Call) :
    step P s (.call c) = some (spawn s c.entry) := rfl

theorem run_append {σ π κ : Type} (P : Printer σ π κ) (s : Sys σ π κ) (t u : List Event) :
    run P s (t ++ u) = match run P s t with
      | some s' => run P s' u
      | none => none := by
  induction t generalizing s with
  | nil => rfl
  | cons e t ih =>
    simp only [List.cons_append, run]
    cases step P s e with
    | none => rfl
    | some s' => exact ih s'

/-- **C9.** Once `stopped = 1`, each of `Print`, `Cancel` and `PrintedFile` is over after
its load of the flag: `Print` returns without touching the pending queue, `Cancel` and
`PrintedFile` return nil, and nothing of the program state changes (no request reaches
the coordinator); only the returned call is recorded. -/
theorem after_stop_trivial {σ π κ : Type} (P : Printer σ π κ) (s : Sys σ π κ) (j : PrinterFile)
    (h : s.disp.stopped = 1) :
    run P s [.call (.Print j), .client s.clients.length] = some (spawn s .printRet) ∧
    run P s [.call .Cancel, .client s.clients.length] = some (spawn s (.cancelRet none)) ∧
    run P s [.call .PrintedFile, .client s.clients.length] = some (spawn s (.printedRet none)) := by
  refine ⟨?_, ?_, ?_⟩
  · rw [run_cons, step_call]
    show run P (spawn s (.printLoad j)) _ = _
    rw [run_cons, step_spawn_local P s (.printLoad j) rfl]
    simp [localStep, h, run]
  · rw [run_cons, step_call]
    show run P (spawn s (.cancelLoad false)) _ = _
    rw [run_cons, step_spawn_local P s (.cancelLoad false) rfl]
    simp [localStep, h, run, cancelDone]
  · rw [run_cons, step_call]
    show run P (spawn s (.printedLoad false)) _ = _
    rw [run_cons, step_spawn_local P s (.printedLoad false) rfl]
    simp [localStep, h, run, printedDone]

/-! ## `PrintedFile` and `CalcAvgPrintDuration` through the coordinator -/

/-- A `PrintedFile` call on a running dispatcher whose coordinator sits in its `select`:
load of the flag, send of the request, the coordinator runs the action, receive of the
reply.  The caller continues with the coordinator's `printed` slice. -/
theorem printed_call {σ π κ : Type} (P : Printer σ π κ) (s : Sys σ π κ) (a : Bool) (alt : Nat)
    (h0 : s.disp.stopped = 0) (hc : s.disp.controlClosed = false) (hsel : s.coord = .select) :
    run P (spawn s (.printedLoad a))
        [.client s.clients.length, .client s.clients.length, .action alt, .client s.clients.length] =
      some (spawn s (printedDone a s.ctx.printed)) := by
  rw [run_cons, step_spawn_local P s (.printedLoad a) rfl]
  have h01 : ¬ ((0 : Int) = 1) := by decide
  simp only [localStep, h0, h01, if_false]
  have hs : ({ s with disp := s.disp } : Sys σ π κ) = s := rfl
  rw [hs]
  have e1 : step P (spawn s (.printedSend a)) (.client s.clients.length) =
      some { s with coord := .printedAction s.clients.length,
                    clients := s.clients ++ [.printedRecv a none] } := by
    simp [step, clientStep, spawn, hsel, hc, set_concat_length]
  rw [run_cons, e1]
  simp only [run_cons, step, actionStep, List.getElem?_concat_length, run]
  let cs : List Frame :=
    (s.clients ++ [Frame.printedRecv a none]).set s.clients.length (.printedRecv a (some s.ctx.printed))
  have e2 := clientStep_local P { s with coord := CoordPc.select, clients := cs } s.clients.length
    (.printedRecv a (some s.ctx.printed)) (by simp [cs, set_concat_length]) rfl
  simp only [cs] at e2
  rw [e2]
  simp only [localStep, set_concat_length, spawn]
  cases s
  simp_all

theorem wrap64_wrap64_add (a x : Int) : wrap64 (wrap64 a + x) = wrap64 (a + x) := by
  unfold wrap64; omega

theorem foldl_wrap64 (l : List PrinterFile) : ∀ a : Int,
    l.foldl (fun sum file => wrap64 (sum + file.printDuration)) (wrap64 a) =
      wrap64 (a + (l.map (fun file => file.printDuration)).sum) := by
  induction l with
  | nil => intro a; simp
  | cons f l ih =>
    intro a
    simp only [List.foldl_cons, List.map_cons, List.sum_cons]
    rw [wrap64_wrap64_add, ih, Int.add_assoc]

/-- The accumulated `sum` is the true sum of the durations, converted to `int64`. -/
theorem sumDurations_eq (l : List PrinterFile) :
    sumDurations l = wrap64 ((l.map (fun file => file.printDuration)).sum) := by
  have h := foldl_wrap64 l 0
  have h0 : wrap64 0 = 0 := by decide
  rw [h0] at h
  simpa [sumDurations] using h

theorem wrap64_of_int64 (x : Int) (h1 : -9223372036854775808 ≤ x) (h2 : x < 9223372036854775808) :
    wrap64 x = x := by
  unfold wrap64; omega

/-- **C10.** On a running dispatcher whose completed list is the non-empty sequence `c`,
`CalcAvgPrintDuration` returns the `int64` sum of the durations of `c` divided by the
length of `c`, truncated toward zero (`wrap64` is the identity on sums that fit in
`int64`, see `wrap64_of_int64`).  The pending queue and the helper goroutines of the
state are arbitrary and do not enter the result. -/
theorem calcAvg_formula {σ π κ : Type} (P : Printer σ π κ) (s : Sys σ π κ) (c : List PrinterFile)
    (alt : Nat) (h0 : s.disp.stopped = 0) (hc : s.disp.controlClosed = false)
    (hsel : s.coord = .select) (hp : s.ctx.printed = some c) (hne : c ≠ []) :
    run P s [.call .CalcAvgPrintDuration, .client s.clients.length, .client s.clients.length,
        .action alt, .client s.clients.length] =
      some (spawn s (.avgRet
        (Int.tdiv (wrap64 ((c.map (fun file => file.printDuration)).sum)) (c.length : Int)))) := by
  rw [run_cons, step_call]
  show run P (spawn s (.printedLoad true)) _ = _
  rw [printed_call P s true alt h0 hc hsel, hp]
  have hlen : (c.length : Int) ≠ 0 := by
    cases c with
    | nil => exact absurd rfl hne
    | cons x l => simp; omega
  simp [printedDone, avgOfFiles, sliceLen, sliceElems, sumDurations_eq, hlen]

/-- **C2.** `CalcAvgPrintDuration` with nothing completed divides by zero.  On a fresh
dispatcher (any printer) the snapshot is the nil slice and the call ends in the run-time
panic; the same happens after `Stop`, where `PrintedFile` returns nil; the computation
panics on the nil slice and on the empty slice. -/
theorem calcAvg_empty_panics {σ π κ : Type} (P : Printer σ π κ) (p : σ) :
    run P (NewPrintDispatcher p)
        [.call .CalcAvgPrintDuration, .client 0, .client 0, .action 0, .client 0] =
      some (spawn (NewPrintDispatcher p) (.panicked .divideByZero)) ∧
    (∃ s, run P (NewPrintDispatcher p)
        [.call .Stop, .client 0, .client 0, .client 0, .client 0, .client 0] = some s ∧
      s.clients = [.stopRet (some [])] ∧
      run P s [.call .CalcAvgPrintDuration, .client 1] = some (spawn s (.panicked .divideByZero))) ∧
    avgOfFiles none = .error .divideByZero ∧ avgOfFiles (some []) = .error .divideByZero := by
  refine ⟨rfl, ⟨_, rfl, rfl, rfl⟩, rfl, rfl⟩

/-! ## Mutual exclusion -/

theorem countP_set_of_get {α : Type} (p : α → Bool) (b : α) :
    ∀ (l : List α) (i : Nat) (a : α), l[i]? = some a →
      (l.set i b).countP p + (if p a then 1 else 0) = l.countP p + (if p b then 1 else 0) := by
  intro l
  induction l with
  | nil => intro i a h; simp at h
  | cons x l ih =>
    intro i a h
    cases i with
    | zero =>
      simp only [List.getElem?_cons_zero, Option.some.injEq] at h
      subst h
      simp only [List.set_cons_zero, List.countP_cons]
      omega
    | succ i =>
      simp only [List.getElem?_cons_succ] at h
      have := ih i a h
      simp only [List.set_cons_succ, List.countP_cons]
      omega

theorem clientStep_keeps {σ π κ : Type} (P : Printer σ π κ) (s s' : Sys σ π κ) (i : Nat)
    (h : clientStep P s i = some s') : s'.ctx = s.ctx ∧ s'.helpers = s.helpers := by
  unfold clientStep at h
  split at h
  · cases h
  · split at h
    · cases h; exact ⟨rfl, rfl⟩
    · cases h; exact ⟨rfl, rfl⟩
    · split at h
      · cases h; exact ⟨rfl, rfl⟩
      · cases h

theorem actionStep_keeps {σ π κ : Type} (P : Printer σ π κ) (s s' : Sys σ π κ) (alt : Nat)
    (h : actionStep P s alt = some s') :
    s'.ctx.printQuota = s.ctx.printQuota ∧ s'.helpers = s.helpers ∧
      s'.ctx.printed = s.ctx.printed ∧ s'.ctx.printedCh = s.ctx.printedCh ∧ s'.disp = s.disp := by
  unfold actionStep at h
  split at h
  · split at h <;> cases h <;> exact ⟨rfl, rfl, rfl, rfl, rfl⟩
  · split at h
    · cases h; exact ⟨rfl, rfl, rfl, rfl, rfl⟩
    · cases h
  · split at h
    · cases h; exact ⟨rfl, rfl, rfl, rfl, rfl⟩
    · cases h
  · cases h

/-- Every step preserves the number of permits in `printQuota` plus the number of
helpers holding one. -/
theorem step_tokens {σ π κ : Type} (P : Printer σ π κ) (s s' : Sys σ π κ) (e : Event)
    (h : step P s e = some s') : s'.ctx.printQuota + holders s' = s.ctx.printQuota + holders s := by
  cases e with
  | call c => cases h; rfl
  | client i =>
    obtain ⟨h1, h2⟩ := clientStep_keeps P s s' i h
    simp [holders, h1, h2]
  | recvFile =>
    simp only [step] at h
    split at h
    · cases h; simp [holders, holdsPermit]
    · cases h
  | recvPrinted =>
    simp only [step] at h
    split at h
    · cases h; rfl
    · cases h
  | recvControl =>
    simp only [step] at h
    split at h
    · split at h <;> cases h
      rfl
    · cases h
  | action alt =>
    obtain ⟨h1, h2, _⟩ := actionStep_keeps P s s' alt h
    simp [holders, h1, h2]
  | helper i alt =>
    simp only [step, helperStep] at h
    split at h
    · rename_i file hg
      split at h
      · cases h
        have := countP_set_of_get (fun h : PrinterFile × HelperPc π => holdsPermit h.2)
          (file, .printing P.printEnter) s.helpers i _ hg
        simp only [holders, holdsPermit] at this ⊢
        simp at this
        omega
      · cases h
    · rename_i file fr hg
      split at h
      · rename_i p1 fr1 hp1
        cases h
        have := countP_set_of_get (fun h : PrinterFile × HelperPc π => holdsPermit h.2)
          (file, .printing fr1) s.helpers i _ hg
        simpa [holders, holdsPermit] using this
      · cases h
        have := countP_set_of_get (fun h : PrinterFile × HelperPc π => holdsPermit h.2)
          (file, .report) s.helpers i _ hg
        simpa [holders, holdsPermit] using this
      · cases h
        have := countP_set_of_get (fun h : PrinterFile × HelperPc π => holdsPermit h.2)
          (file, .release) s.helpers i _ hg
        simpa [holders, holdsPermit] using this
      · cases h
    · rename_i file hg
      split at h
      · cases h
        have := countP_set_of_get (fun h : PrinterFile × HelperPc π => holdsPermit h.2)
          (file, .release) s.helpers i _ hg
        simpa [holders, holdsPermit] using this
      · cases h
    · rename_i file hg
      split at h
      · cases h
        have := countP_set_of_get (fun h : PrinterFile × HelperPc π => holdsPermit h.2)
          (file, .done) s.helpers i _ hg
        simp only [holders, holdsPermit] at this ⊢
        simp at this
        omega
      · cases h
    · cases h

theorem run_tokens {σ π κ : Type} (P : Printer σ π κ) (t : List Event) :
    ∀ (s s' : Sys σ π κ), run P s t = some s' →
      s'.ctx.printQuota + holders s' = s.ctx.printQuota + holders s := by
  induction t with
  | nil => intro s s' h; cases h; rfl
  | cons e t ih =>
    intro s s' h
    rw [run_cons] at h
    cases hs : step P s e with
    | none => simp [hs] at h
    | some s1 =>
      simp only [hs] at h
      rw [ih s1 s' h, step_tokens P s s1 e hs]

theorem printing_le_holders {σ π κ : Type} (s : Sys σ π κ) : printing s ≤ holders s := by
  unfold printing holders
  apply List.countP_mono_left
  intro x _ hx
  cases hpc : x.2 <;> simp_all [insidePrint, holdsPermit]

/-- **C1.** Mutual exclusion of the worker, for every printer and every interleaving of
callers, coordinator and helpers starting from `NewPrintDispatcher`: at most one helper
is inside `Printer.Print`, and the permits in `printQuota` plus the helpers holding a
permit always number exactly one. -/
theorem mutual_exclusion {σ π κ : Type} (P : Printer σ π κ) (p : σ) (t : List Event) (s : Sys σ π κ)
    (h : run P (NewPrintDispatcher p) t = some s) :
    printing s ≤ 1 ∧ s.ctx.printQuota + holders s = 1 := by
  have h1 := run_tokens P t _ s h
  have h2 : s.ctx.printQuota + holders s = 1 := by simpa [NewPrintDispatcher, holders] using h1
  have h3 := printing_le_holders s
  exact ⟨by omega, h2⟩

/-! ## The abort protocol of the reference worker -/

/-- **C6.** The abort protocol of a `DryPrinter` built by `NewDryPrinter`, for every job
`j`: `Cancel` sends on `cancelCh`, `Print(j)` takes the signal at its `select` before the
timer, `Cancel` resumes.  Then `Print(j)` is at `p.cancelledFile <- file` and `Cancel` at
`<-p.cancelledFile`; the channel is nil, so neither call can take a step: `Print` does
not return the error and `Cancel` does not return `j`. -/
theorem dryPrinter_abort_blocks (j : PrinterFile) (alt : Nat) :
    DryPrinter.Cancel NewDryPrinter .sendCancel 0 =
      some ({ cancelCh := { sendq := [()], taken := 0 }, cancelledFile := none }, .cont .sentCancel) ∧
    DryPrinter.Print { cancelCh := { sendq := [()], taken := 0 }, cancelledFile := none } j .select 1 =
      some ({ cancelCh := { sendq := [], taken := 1 }, cancelledFile := none }, .cont .sendFile) ∧
    DryPrinter.Cancel { cancelCh := { sendq := [], taken := 1 }, cancelledFile := none } .sentCancel 0 =
      some (NewDryPrinter, .cont .recvFile) ∧
    DryPrinter.Print NewDryPrinter j .sendFile alt = none ∧
    DryPrinter.Cancel NewDryPrinter .recvFile alt = none := by
  refine ⟨rfl, rfl, rfl, rfl, rfl⟩

/-- No statement of the reference worker assigns `cancelledFile`: a nil channel stays
nil, and the two statements that use it stay blocked. -/
theorem dryPrinter_nil_forever (p p' : DryPrinter) (h : p.cancelledFile = none) :
    (∀ file pc alt n, DryPrinter.Print p file pc alt = some (p', n) → p'.cancelledFile = none) ∧
    (∀ pc alt n, DryPrinter.Cancel p pc alt = some (p', n) → p'.cancelledFile = none) ∧
    (∀ file alt, DryPrinter.Print p file .sendFile alt = none) ∧
    (∀ alt, DryPrinter.Cancel p .recvFile alt = none) := by
  refine ⟨?_, ?_, ?_, ?_⟩
  · intro file pc alt n hs
    cases pc with
    | select =>
      match alt, hs with
      | 0, hs => simp only [DryPrinter.Print] at hs; cases hs; exact h
      | 1, hs =>
        simp only [DryPrinter.Print] at hs
        split at hs
        · cases hs; exact h
        · cases hs
      | _ + 2, hs => simp [DryPrinter.Print] at hs
    | sendFile => simp [DryPrinter.Print, h] at hs
    | sentFile => simp [DryPrinter.Print, h] at hs
  · intro pc alt n hs
    cases pc with
    | sendCancel => simp only [DryPrinter.Cancel] at hs; cases hs; exact h
    | sentCancel =>
      simp only [DryPrinter.Cancel] at hs
      split at hs
      · cases hs; exact h
      · cases hs
    | recvFile => simp [DryPrinter.Cancel, h] at hs
  · intro file alt; simp [DryPrinter.Print, h]
  · intro alt; simp [DryPrinter.Cancel, h]

/-! ## `Cancel` while the worker is idle -/

/-- The anatomy of a caller's step: either the coordinator takes a request sent on
`controlQueue`, or the caller executes a statement of its own. -/
theorem clientStep_cases {σ π κ : Type} (P : Printer σ π κ) (s s' : Sys σ π κ) (i : Nat)
    (h : clientStep P s i = some s') :
    ∃ fr fr', s.clients[i]? = some fr ∧ s'.clients = s.clients.set i fr' ∧
      s'.helpers = s.helpers ∧ s'.ctx = s.ctx ∧
      ((s.coord = .select ∧ s'.disp = s.disp ∧
          ((∃ k, fr = .cancelSend k ∧ fr' = .cancelRecv k ∧ s'.coord = .cancelAction i P.cancelEnter) ∨
           (∃ a, fr = .printedSend a ∧ fr' = .printedRecv a none ∧ s'.coord = .printedAction i))) ∨
       (localStep s.disp i fr = some (s'.disp, fr') ∧ s'.coord = s.coord)) := by
  unfold clientStep at h
  split at h
  · cases h
  · rename_i fr hfr
    split at h
    · rename_i k hsel hcl
      cases h
      exact ⟨_, _, hfr, rfl, rfl, rfl, Or.inl ⟨hsel, rfl, Or.inl ⟨k, rfl, rfl, rfl⟩⟩⟩
    · rename_i a hsel hcl
      cases h
      exact ⟨_, _, hfr, rfl, rfl, rfl, Or.inl ⟨hsel, rfl, Or.inr ⟨a, rfl, rfl, rfl⟩⟩⟩
    · split at h
      · rename_i d fr' hl
        cases h
        exact ⟨_, _, hfr, rfl, rfl, rfl, Or.inr ⟨hl, rfl⟩⟩
      · cases h

theorem localStep_answered (d d' : Disp) (i : Nat) (fr fr' : Frame)
    (h : localStep d i fr = some (d', fr'))
    (hfr : fr.answered = false) : fr'.answered = false := by
  cases fr with
  | printedRecv a buf =>
    cases buf with
    | none => simp [localStep] at h
    | some files => simp [Frame.answered] at hfr
  | printLoad file => simp only [localStep] at h; split at h <;> cases h <;> rfl
  | printSend file => simp only [localStep] at h; split at h <;> cases h <;> rfl
  | printParked file => simp only [localStep] at h; split at h <;> cases h; rfl
  | cancelLoad k =>
    simp only [localStep] at h
    split at h <;> cases h
    · cases k <;> rfl
    · rfl
  | cancelSend k => simp only [localStep] at h; split at h <;> cases h; rfl
  | printedLoad a =>
    simp only [localStep] at h
    split at h <;> cases h
    · cases a <;> rfl
    · rfl
  | printedSend a => simp only [localStep] at h; split at h <;> cases h; rfl
  | stopCAS => simp only [localStep] at h; split at h <;> cases h <;> rfl
  | stopClose => simp only [localStep] at h; split at h <;> cases h <;> rfl
  | stopMake => simp only [localStep] at h; cases h; rfl
  | stopFetch => simp only [localStep] at h; split at h <;> cases h <;> rfl
  | _ => simp [localStep] at h

theorem cancelStuck_step (s s' : Sys DryPrinter DryPrintPc DryCancelPc) (e : Event)
    (hs : CancelStuck s) (h : step dryPrinter s e = some s') : CancelStuck s' := by
  obtain ⟨hco, hhe, hta, hpr, hcl⟩ := hs
  cases e with
  | call c =>
    cases h
    refine ⟨hco, hhe, hta, hpr, ?_⟩
    intro fr hfr
    simp only [List.mem_append, List.mem_singleton] at hfr
    rcases hfr with hfr | rfl
    · exact hcl fr hfr
    · cases c <;> rfl
  | client i =>
    obtain ⟨fr, fr', hfr, hcs, hh, hc, hcase⟩ := clientStep_cases dryPrinter s s' i h
    rcases hcase with ⟨hsel, _⟩ | ⟨hl, hco'⟩
    · rw [hco] at hsel; cases hsel
    · refine ⟨hco' ▸ hco, hh ▸ hhe, hc ▸ hta, hc ▸ hpr, ?_⟩
      intro x hx
      rw [hcs] at hx
      rcases List.mem_or_eq_of_mem_set hx with hx | rfl
      · exact hcl x hx
      · exact localStep_answered _ _ _ _ _ hl (hcl fr (List.getElem?_mem hfr))
  | recvFile => simp [step, hco] at h
  | recvPrinted => simp [step, hco] at h
  | recvControl => simp [step, hco] at h
  | action alt =>
    simp [step, actionStep, hco, dryPrinter, DryPrinter.Cancel, Chan.resume, hta] at h
  | helper i alt => simp [step, helperStep, hhe] at h

theorem cancelStuck_run (t : List Event) :
    ∀ (s s' : Sys DryPrinter DryPrintPc DryCancelPc), CancelStuck s →
      run dryPrinter s t = some s' → CancelStuck s' := by
  induction t with
  | nil => intro s s' hs h; cases h; exact hs
  | cons e t ih =>
    intro s s' hs h
    rw [run_cons] at h
    cases hstep : step dryPrinter s e with
    | none => simp [hstep] at h
    | some s1 =>
      simp only [hstep] at h
      exact ih s1 s' (cancelStuck_step s s1 e hs hstep) h

/-- **C7.** A `Cancel` on a fresh dispatcher bound to the reference worker (nothing is
inside `Printer.Print`): once the request is delivered, the coordinator calls
`DryPrinter.Cancel` and parks at the send on `cancelCh`.  Whatever happens afterwards, in
every interleaving, the coordinator is still parked there: it never returns to its
`select`, no helper is ever started, nothing is ever completed, and no caller ever gets
an answer from the coordinator.  This does not depend on `cancelledFile` (`cf`) being
nil, as it is after `NewDryPrinter`. -/
theorem cancel_idle_blocks_coordinator (cf : Option (Chan PrinterFile)) (t : List Event)
    (s : Sys DryPrinter DryPrintPc DryCancelPc)
    (h : run dryPrinter (NewPrintDispatcher { cancelCh := Chan.make, cancelledFile := cf })
      ([.call .Cancel, .client 0, .client 0, .action 0] ++ t) = some s) :
    s.coord = .cancelAction 0 .sentCancel ∧ s.helpers = [] ∧ s.ctx.printed = none ∧
      ∀ fr ∈ s.clients, fr.answered = false := by
  rw [run_append] at h
  have h4 : run dryPrinter
      (NewPrintDispatcher { cancelCh := Chan.make, cancelledFile := cf } : Sys DryPrinter DryPrintPc DryCancelPc)
      [.call .Cancel, .client 0, .client 0, .action 0] =
      some { disp := { fileQueue := [], sendq := [], woken := [], controlClosed := false, stopped := 0, notPrintedFiles := none },
             ctx := { printer := { cancelCh := { sendq := [()], taken := 0 }, cancelledFile := cf },
                      printedCh := [], printed := none, printQuota := 1 },
             coord := .cancelAction 0 .sentCancel, helpers := [], clients := [.cancelRecv false] } := rfl
  rw [h4] at h
  have hst := cancelStuck_run t _ s ⟨rfl, rfl, rfl, rfl, by simp [Frame.answered]⟩ h
  exact ⟨hst.1, hst.2.1, hst.2.2.2.1, hst.2.2.2.2⟩

/-! ## Where the submitted jobs are -/

/-- In `lostState` no caller, helper or coordinator step is enabled. -/
theorem lostState_quiescent : Quiescent dryPrinter lostState := by
  intro e he
  cases e with
  | call c => simp [Event.isCall] at he
  | client i =>
    match i with
    | 0 => rfl
    | 1 => rfl
    | _ + 2 => rfl
  | recvFile => rfl
  | recvPrinted => rfl
  | recvControl => rfl
  | action alt => rfl
  | helper i alt =>
    match i with
    | 0 => rfl
    | _ + 1 => rfl

/-- **C8, counterexample.** With the reference worker, the interleaving `lostTrace`
accepts the job `testDocument` while the dispatcher is running and ends, with both calls
returned and no goroutine able to move, in a state where the job sits in `printedCh`: it
is not in the completed list, not in the list returned by `Stop`, and no `Cancel` call
has returned it. -/
theorem job_lost_in_channel :
    run dryPrinter (NewPrintDispatcher NewDryPrinter) lostTrace = some lostState ∧
    acceptedAlong dryPrinter (NewPrintDispatcher NewDryPrinter) lostTrace = [testDocument] ∧
    Quiescent dryPrinter lostState ∧
    lostState.clients = [.printRet, .stopRet (some [])] ∧
    ¬ Reported lostState testDocument := by
  refine ⟨by decide, by decide, lostState_quiescent, rfl, ?_⟩
  simp [Reported, lostState, sliceElems]

theorem localStep_effect (d d' : Disp) (i : Nat) (fr fr' : Frame)
    (h : localStep d i fr = some (d', fr')) :
    (d'.stopped = d.stopped ∧ d'.notPrintedFiles = d.notPrintedFiles ∧
        (preMake fr' = true → preMake fr = true) ∧ (isFetch fr' = true → isFetch fr = true)) ∨
    (fr = .stopCAS ∧ d.stopped = 0 ∧ fr' = .cancelLoad true ∧
        d'.notPrintedFiles = d.notPrintedFiles ∧ d'.stopped = 1) ∨
    (fr = .stopMake ∧ fr' = .stopFetch ∧ d'.stopped = d.stopped ∧ d'.notPrintedFiles = some []) ∨
    (fr = .stopFetch ∧ fr' = .stopFetch ∧ d'.stopped = d.stopped ∧ d'.notPrintedFiles ≠ none) := by
  cases fr with
  | printLoad file =>
    simp only [localStep] at h
    split at h <;> cases h <;> exact Or.inl ⟨rfl, rfl, by simp [preMake], by simp [isFetch]⟩
  | printSend file =>
    simp only [localStep] at h
    split at h <;> cases h <;> exact Or.inl ⟨rfl, rfl, by simp [preMake], by simp [isFetch]⟩
  | printParked file =>
    simp only [localStep] at h
    split at h <;> cases h
    exact Or.inl ⟨rfl, rfl, by simp [preMake], by simp [isFetch]⟩
  | cancelLoad k =>
    simp only [localStep] at h
    split at h <;> cases h
    · cases k <;> exact Or.inl ⟨rfl, rfl, by simp [preMake, cancelDone], by simp [isFetch, cancelDone]⟩
    · cases k <;> exact Or.inl ⟨rfl, rfl, by simp [preMake], by simp [isFetch]⟩
  | cancelSend k =>
    simp only [localStep] at h
    split at h <;> cases h
    exact Or.inl ⟨rfl, rfl, by simp [preMake], by simp [isFetch]⟩
  | printedLoad a =>
    simp only [localStep] at h
    split at h <;> cases h
    · cases a <;> exact Or.inl ⟨rfl, rfl, by simp [preMake, printedDone, avgOfFiles, sliceLen, sliceElems],
        by simp [isFetch, printedDone, avgOfFiles, sliceLen, sliceElems]⟩
    · exact Or.inl ⟨rfl, rfl, by simp [preMake], by simp [isFetch]⟩
  | printedSend a =>
    simp only [localStep] at h
    split at h <;> cases h
    exact Or.inl ⟨rfl, rfl, by simp [preMake], by simp [isFetch]⟩
  | printedRecv a buf =>
    cases buf with
    | none => simp [localStep] at h
    | some files =>
      simp only [localStep] at h
      cases h
      refine Or.inl ⟨rfl, rfl, ?_, ?_⟩
      · cases a
        · simp [preMake, printedDone]
        · simp only [printedDone, if_true]; split <;> simp [preMake]
      · cases a
        · simp [isFetch, printedDone]
        · simp only [printedDone, if_true]; split <;> simp [isFetch]
  | stopCAS =>
    simp only [localStep] at h
    split at h
    · rename_i h0
      cases h
      exact Or.inr (Or.inl ⟨rfl, h0, rfl, rfl, rfl⟩)
    · cases h
      exact Or.inl ⟨rfl, rfl, by simp [preMake], by simp [isFetch]⟩
  | stopClose =>
    simp only [localStep] at h
    split at h <;> cases h
    · exact Or.inl ⟨rfl, rfl, by simp [preMake], by simp [isFetch]⟩
    · exact Or.inl ⟨rfl, rfl, by simp [preMake], by simp [isFetch]⟩
  | stopMake =>
    simp only [localStep] at h
    cases h
    exact Or.inr (Or.inr (Or.inl ⟨rfl, rfl, rfl, rfl⟩))
  | stopFetch =>
    simp only [localStep] at h
    split at h <;> cases h
    · rename_i file d1 hq
      exact Or.inr (Or.inr (Or.inr ⟨rfl, rfl, (recvFileQueue_spec _ _ _ hq).1, by simp [sliceAppend]⟩))
    · exact Or.inl ⟨rfl, rfl, by simp [preMake], by simp [isFetch]⟩
  | _ => simp [localStep] at h

theorem countP_pos_of_get {α : Type} (p : α → Bool) (l : List α) (i : Nat) (a : α)
    (h : l[i]? = some a) (ha : p a = true) : 0 < l.countP p :=
  List.countP_pos_iff.mpr ⟨a, List.getElem?_mem h, ha⟩

/-- The effect of one frame replacement on `StopOnce`. -/
theorem stopOnce_set {σ π κ : Type} (s s' : Sys σ π κ) (i : Nat) (fr fr' : Frame)
    (hs : StopOnce s) (hfr : s.clients[i]? = some fr) (hcs : s'.clients = s.clients.set i fr')
    (heff : (s'.disp.stopped = s.disp.stopped ∧ s'.disp.notPrintedFiles = s.disp.notPrintedFiles ∧
        (preMake fr' = true → preMake fr = true) ∧ (isFetch fr' = true → isFetch fr = true)) ∨
      (fr = .stopCAS ∧ s.disp.stopped = 0 ∧ fr' = .cancelLoad true ∧
        s'.disp.notPrintedFiles = s.disp.notPrintedFiles ∧ s'.disp.stopped = 1) ∨
      (fr = .stopMake ∧ fr' = .stopFetch ∧ s'.disp.stopped = s.disp.stopped ∧
        s'.disp.notPrintedFiles = some []) ∨
      (fr = .stopFetch ∧ fr' = .stopFetch ∧ s'.disp.stopped = s.disp.stopped ∧
        s'.disp.notPrintedFiles ≠ none)) : StopOnce s' := by
  obtain ⟨i1, i2, i3⟩ := hs
  have hN := countP_set_of_get preMake fr' s.clients i fr hfr
  have hM := countP_set_of_get isFetch fr' s.clients i fr hfr
  rw [← hcs] at hN hM
  rcases heff with ⟨e1, e2, e3, e4⟩ | ⟨rfl, e0, rfl, e2, e1⟩ | ⟨rfl, rfl, e1, e2⟩ | ⟨rfl, rfl, e1, e2⟩
  · have hN' : s'.clients.countP preMake ≤ s.clients.countP preMake := by
      (cases h1 : preMake fr' <;> cases h2 : preMake fr <;> simp_all); omega
    have hM' : s'.clients.countP isFetch ≤ s.clients.countP isFetch := by
      (cases h1 : isFetch fr' <;> cases h2 : isFetch fr <;> simp_all); omega
    refine ⟨?_, by omega, ?_⟩
    · intro hnp; rw [e2] at hnp; have := i1 hnp; omega
    · intro h0; rw [e1] at h0; obtain ⟨a, b, c⟩ := i3 h0; exact ⟨by omega, by omega, e2 ▸ c⟩
  · obtain ⟨a, b, c⟩ := i3 e0
    simp [preMake, isFetch] at hN hM
    refine ⟨fun hnp => absurd (e2 ▸ c) hnp, by omega, ?_⟩
    intro h0; rw [e1] at h0; cases h0
  · have hpos := countP_pos_of_get preMake s.clients i _ hfr rfl
    simp [preMake, isFetch] at hN hM
    refine ⟨fun _ => by omega, by omega, ?_⟩
    intro h0; rw [e1] at h0; obtain ⟨a, _, _⟩ := i3 h0; omega
  · have hpos := countP_pos_of_get isFetch s.clients i _ hfr rfl
    simp [preMake, isFetch] at hN hM
    refine ⟨fun _ => by omega, by omega, ?_⟩
    intro h0; rw [e1] at h0; obtain ⟨_, b, _⟩ := i3 h0; omega

theorem stopOnce_congr {σ π κ : Type} (s s' : Sys σ π κ) (hs : StopOnce s)
    (h1 : s'.clients = s.clients) (h2 : s'.disp.stopped = s.disp.stopped)
    (h3 : s'.disp.notPrintedFiles = s.disp.notPrintedFiles) : StopOnce s' := by
  unfold StopOnce at hs ⊢
  rw [h1, h2, h3]
  exact hs

theorem actionStep_clients {σ π κ : Type} (P : Printer σ π κ) (s s' : Sys σ π κ) (alt : Nat)
    (h : actionStep P s alt = some s') :
    s'.clients = s.clients ∨
      ∃ c fr fr', s.clients[c]? = some fr ∧ s'.clients = s.clients.set c fr' ∧
        (preMake fr' = true → preMake fr = true) ∧ (isFetch fr' = true → isFetch fr = true) := by
  unfold actionStep at h
  split at h
  · split at h
    · cases h; exact Or.inl rfl
    · cases h; exact Or.inl rfl
    · cases h
  · split at h
    · rename_i k hk
      cases h
      refine Or.inr ⟨_, _, _, hk, rfl, ?_, ?_⟩
      · cases k <;> simp [cancelDone, preMake]
      · cases k <;> simp [cancelDone, isFetch]
    · cases h
  · split at h
    · rename_i a hk
      cases h
      exact Or.inr ⟨_, _, _, hk, rfl, by simp [preMake], by simp [isFetch]⟩
    · cases h
  · cases h

theorem helperStep_keeps {σ π κ : Type} (P : Printer σ π κ) (s s' : Sys σ π κ) (i alt : Nat)
    (h : helperStep P s i alt = some s') : s'.clients = s.clients ∧ s'.disp = s.disp := by
  unfold helperStep at h
  split at h
  · split at h
    · cases h; exact ⟨rfl, rfl⟩
    · cases h
  · split at h
    · cases h; exact ⟨rfl, rfl⟩
    · cases h; exact ⟨rfl, rfl⟩
    · cases h; exact ⟨rfl, rfl⟩
    · cases h
  · split at h
    · cases h; exact ⟨rfl, rfl⟩
    · cases h
  · split at h
    · cases h; exact ⟨rfl, rfl⟩
    · cases h
  · cases h

/-- Every step preserves `StopOnce`. -/
theorem stopOnce_step {σ π κ : Type} (P : Printer σ π κ) (s s' : Sys σ π κ) (e : Event)
    (hs : StopOnce s) (h : step P s e = some s') : StopOnce s' := by
  cases e with
  | call c =>
    cases h
    obtain ⟨i1, i2, i3⟩ := hs
    have hp : preMake c.entry = false := by cases c <;> rfl
    have hf : isFetch c.entry = false := by cases c <;> rfl
    have e1 : (s.clients ++ [c.entry]).countP preMake = s.clients.countP preMake := by
      rw [List.countP_append, List.countP_cons, List.countP_nil, hp]; rfl
    have e2 : (s.clients ++ [c.entry]).countP isFetch = s.clients.countP isFetch := by
      rw [List.countP_append, List.countP_cons, List.countP_nil, hf]; rfl
    unfold StopOnce
    rw [e1, e2]
    exact ⟨i1, i2, i3⟩
  | client i =>
    obtain ⟨fr, fr', hfr, hcs, _, _, hcase⟩ := clientStep_cases P s s' i h
    rcases hcase with ⟨_, hd, hk | ha⟩ | ⟨hl, _⟩
    · obtain ⟨k, rfl, rfl, _⟩ := hk
      exact stopOnce_set s s' i _ _ hs hfr hcs
        (Or.inl ⟨by rw [hd], by rw [hd], by cases k <;> simp [preMake], by simp [isFetch]⟩)
    · obtain ⟨a, rfl, rfl, _⟩ := ha
      exact stopOnce_set s s' i _ _ hs hfr hcs
        (Or.inl ⟨by rw [hd], by rw [hd], by simp [preMake], by simp [isFetch]⟩)
    · exact stopOnce_set s s' i fr fr' hs hfr hcs (localStep_effect _ _ _ _ _ hl)
  | recvFile =>
    simp only [step] at h
    split at h
    · rename_i file d1 hsel hq
      cases h
      obtain ⟨q1, q2, _⟩ := recvFileQueue_spec _ _ _ hq
      exact stopOnce_congr _ _ hs rfl q1 q2
    · cases h
  | recvPrinted =>
    simp only [step] at h
    split at h
    · cases h; exact stopOnce_congr _ _ hs rfl rfl rfl
    · cases h
  | recvControl =>
    simp only [step] at h
    split at h
    · split at h
      · cases h; exact stopOnce_congr _ _ hs rfl rfl rfl
      · cases h
    · cases h
  | action alt =>
    obtain ⟨_, _, _, _, hd⟩ := actionStep_keeps P s s' alt h
    rcases actionStep_clients P s s' alt h with hc | ⟨c, fr, fr', hfr, hcs, e3, e4⟩
    · exact stopOnce_congr _ _ hs hc (by rw [hd]) (by rw [hd])
    · exact stopOnce_set s s' c fr fr' hs hfr hcs (Or.inl ⟨by rw [hd], by rw [hd], e3, e4⟩)
  | helper i alt =>
    obtain ⟨hc, hd⟩ := helperStep_keeps P s s' i alt h
    exact stopOnce_congr _ _ hs hc (by rw [hd]) (by rw [hd])

/-- What a caller's own statement does to the pending queue and to the cached list. -/
theorem localStep_queue (d d' : Disp) (i : Nat) (fr fr' : Frame)
    (h : localStep d i fr = some (d', fr')) :
    (∃ file, fr = .printSend file ∧ d.fileQueue.length < 10 ∧
        d'.fileQueue = d.fileQueue ++ [file] ∧ d'.notPrintedFiles = d.notPrintedFiles) ∨
    (fr = .stopMake ∧ d'.fileQueue = d.fileQueue ∧ d'.notPrintedFiles = some []) ∨
    (∃ file q, fr = .stopFetch ∧ d.fileQueue = file :: q ∧ d'.fileQueue = q ++ handedOver d ∧
        d'.notPrintedFiles = sliceAppend d.notPrintedFiles file) ∨
    ((∀ file, fr = .printSend file → ¬ d.fileQueue.length < 10) ∧
        (fr = .stopFetch → d.fileQueue = []) ∧ d'.fileQueue = d.fileQueue ∧
        d'.notPrintedFiles = d.notPrintedFiles) := by
  cases fr with
  | printLoad file =>
    simp only [localStep] at h
    split at h <;> cases h <;> exact Or.inr (Or.inr (Or.inr ⟨by simp, by simp, rfl, rfl⟩))
  | printSend file =>
    simp only [localStep] at h
    split at h <;> cases h
    · rename_i hlt
      exact Or.inl ⟨file, rfl, hlt, rfl, rfl⟩
    · rename_i hlt
      exact Or.inr (Or.inr (Or.inr ⟨fun _ _ => hlt, by simp, rfl, rfl⟩))
  | printParked file =>
    simp only [localStep] at h
    split at h <;> cases h
    exact Or.inr (Or.inr (Or.inr ⟨by simp, by simp, rfl, rfl⟩))
  | cancelLoad k =>
    simp only [localStep] at h
    split at h <;> cases h <;> exact Or.inr (Or.inr (Or.inr ⟨by simp, by simp, rfl, rfl⟩))
  | cancelSend k =>
    simp only [localStep] at h
    split at h <;> cases h
    exact Or.inr (Or.inr (Or.inr ⟨by simp, by simp, rfl, rfl⟩))
  | printedLoad a =>
    simp only [localStep] at h
    split at h <;> cases h <;> exact Or.inr (Or.inr (Or.inr ⟨by simp, by simp, rfl, rfl⟩))
  | printedSend a =>
    simp only [localStep] at h
    split at h <;> cases h
    exact Or.inr (Or.inr (Or.inr ⟨by simp, by simp, rfl, rfl⟩))
  | printedRecv a buf =>
    cases buf with
    | none => simp [localStep] at h
    | some files =>
      simp only [localStep] at h
      cases h
      exact Or.inr (Or.inr (Or.inr ⟨by simp, by simp, rfl, rfl⟩))
  | stopCAS =>
    simp only [localStep] at h
    split at h <;> cases h <;> exact Or.inr (Or.inr (Or.inr ⟨by simp, by simp, rfl, rfl⟩))
  | stopClose =>
    simp only [localStep] at h
    split at h <;> cases h <;> exact Or.inr (Or.inr (Or.inr ⟨by simp, by simp, rfl, rfl⟩))
  | stopMake =>
    simp only [localStep] at h
    cases h
    exact Or.inr (Or.inl ⟨rfl, rfl, rfl⟩)
  | stopFetch =>
    simp only [localStep] at h
    split at h <;> cases h
    · rename_i file d1 hq
      obtain ⟨_, _, _, q, hq1, hq2⟩ := recvFileQueue_spec _ _ _ hq
      exact Or.inr (Or.inr (Or.inl ⟨file, q, rfl, hq1, hq2, rfl⟩))
    · rename_i hq
      exact Or.inr (Or.inr (Or.inr ⟨by simp, fun _ => recvFileQueue_none _ hq, rfl, rfl⟩))
  | _ => simp [localStep] at h

theorem copies_congr {σ π κ : Type} (j : PrinterFile) (s s' : Sys σ π κ)
    (h1 : s'.disp.fileQueue = s.disp.fileQueue)
    (h2 : s'.disp.notPrintedFiles = s.disp.notPrintedFiles) (h3 : s'.helpers = s.helpers)
    (h4 : s'.ctx.printedCh = s.ctx.printedCh) (h5 : s'.ctx.printed = s.ctx.printed) :
    copies j s' = copies j s := by
  unfold copies
  rw [h1, h2, h3, h4, h5]

/-- One step moves a job from one place to the next, takes a new one in, or drops one:
the copies held afterwards plus the dropped one are the copies held before plus the
accepted one. -/
theorem copies_step {σ π κ : Type} (P : Printer σ π κ) (j : PrinterFile) (s s' : Sys σ π κ)
    (e : Event) (hs : StopOnce s) (h : step P s e = some s') :
    copies j s' + (drops P s e).count j = copies j s + (accepts s e).count j := by
  cases e with
  | call c =>
    cases h
    simp [copies, drops, accepts]
  | client i =>
    obtain ⟨fr, fr', hfr, hcs, hh, hc, hcase⟩ := clientStep_cases P s s' i h
    have hdrop : drops P s (.client i) = [] := rfl
    rw [hdrop]
    rcases hcase with ⟨_, hd, hk | ha⟩ | ⟨hl, _⟩
    · obtain ⟨k, rfl, _⟩ := hk
      have hacc : accepts s (.client i) = [] := by simp [accepts, hfr]
      rw [hacc, copies_congr j s s' (by rw [hd]) (by rw [hd]) hh (by rw [hc]) (by rw [hc])]
    · obtain ⟨a, rfl, _⟩ := ha
      have hacc : accepts s (.client i) = [] := by simp [accepts, hfr]
      rw [hacc, copies_congr j s s' (by rw [hd]) (by rw [hd]) hh (by rw [hc]) (by rw [hc])]
    · rcases localStep_queue _ _ _ _ _ hl with ⟨file, rfl, hlt, q1, q2⟩ | ⟨rfl, q1, q2⟩ |
        ⟨file, q, rfl, q0, q1, q2⟩ | ⟨hne, hfe, q1, q2⟩
      · have hacc : accepts s (.client i) = [file] := by simp [accepts, hfr, hlt]
        rw [hacc]
        simp only [copies, q1, q2, hh, hc, List.count_append, List.count_nil]
        omega
      · have hacc : accepts s (.client i) = [] := by simp [accepts, hfr]
        have hpos := countP_pos_of_get preMake s.clients i _ hfr rfl
        have hnil : s.disp.notPrintedFiles = none := by
          by_contra hne
          have := hs.1 hne
          omega
        rw [hacc]
        simp only [copies, q1, q2, hnil, hh, hc, sliceElems]
      · have hacc : accepts s (.client i) = handedOver s.disp := by simp [accepts, hfr]
        rw [hacc]
        simp only [copies, q0, q1, q2, hh, hc, sliceAppend, sliceElems, List.count_append,
          List.count_cons, List.count_nil]
        omega
      · have hacc : accepts s (.client i) = [] := by
          simp only [accepts, hfr]
          cases fr with
          | printSend file => simp [hne file rfl]
          | stopFetch => simp [handedOver, hfe rfl]
          | _ => rfl
        rw [hacc, copies_congr j s s' q1 q2 hh (by rw [hc]) (by rw [hc])]
  | recvFile =>
    simp only [step] at h
    split at h
    · rename_i file d1 hsel hq
      cases h
      obtain ⟨_, q2, _, q, hq0, hq1⟩ := recvFileQueue_spec _ _ _ hq
      simp only [copies, drops, accepts, hq0, hq1, q2, List.countP_append, List.countP_cons,
        List.countP_nil, List.count_append, List.count_cons, List.count_nil, busy, Bool.true_and,
        beq_iff_eq, decide_eq_true_eq]
      omega
    · cases h
  | recvPrinted =>
    simp only [step] at h
    split at h
    · rename_i file r hsel hq
      cases h
      simp only [copies, drops, accepts, hq, sliceAppend, sliceElems, List.count_append,
        List.count_cons, List.count_nil]
      omega
    · cases h
  | recvControl =>
    simp only [step] at h
    split at h
    · split at h
      · cases h; rfl
      · cases h
    · cases h
  | action alt =>
    obtain ⟨_, h2, h3, h4, h5⟩ := actionStep_keeps P s s' alt h
    have hacc : accepts s (.action alt) = [] := rfl
    have hdrop : drops P s (.action alt) = [] := rfl
    rw [hacc, hdrop, copies_congr j s s' (by rw [h5]) (by rw [h5]) h2 h4 h3]
  | helper i alt =>
    have hacc : accepts s (.helper i alt) = [] := rfl
    rw [hacc]
    simp only [step, helperStep] at h
    split at h
    · rename_i file hg
      split at h
      · cases h
        have := countP_set_of_get (fun h : PrinterFile × HelperPc π => busy h.2 && decide (h.1 = j))
          (file, .printing P.printEnter) s.helpers i _ hg
        simp only [copies, drops, hg, busy] at this ⊢
        omega
      · cases h
    · rename_i file fr hg
      split at h
      · rename_i p1 fr1 hp1
        cases h
        have := countP_set_of_get (fun h : PrinterFile × HelperPc π => busy h.2 && decide (h.1 = j))
          (file, .printing fr1) s.helpers i _ hg
        simp only [copies, drops, hg, hp1, busy] at this ⊢
        omega
      · rename_i p1 hp1
        cases h
        have := countP_set_of_get (fun h : PrinterFile × HelperPc π => busy h.2 && decide (h.1 = j))
          (file, .report) s.helpers i _ hg
        simp only [copies, drops, hg, hp1, busy] at this ⊢
        omega
      · rename_i p1 err hp1
        cases h
        have := countP_set_of_get (fun h : PrinterFile × HelperPc π => busy h.2 && decide (h.1 = j))
          (file, .release) s.helpers i _ hg
        simp only [copies, drops, hg, hp1, busy, Bool.true_and, Bool.false_and, decide_eq_true_eq,
          List.count_cons, List.count_nil, beq_iff_eq] at this ⊢
        simp at this
        omega
      · cases h
    · rename_i file hg
      split at h
      · cases h
        have := countP_set_of_get (fun h : PrinterFile × HelperPc π => busy h.2 && decide (h.1 = j))
          (file, .release) s.helpers i _ hg
        simp only [copies, drops, hg, busy, Bool.true_and, Bool.false_and, decide_eq_true_eq,
          List.count_append, List.count_cons, List.count_nil, beq_iff_eq] at this ⊢
        simp at this
        omega
      · cases h
    · rename_i file hg
      split at h
      · cases h
        have := countP_set_of_get (fun h : PrinterFile × HelperPc π => busy h.2 && decide (h.1 = j))
          (file, .done) s.helpers i _ hg
        simp only [copies, drops, hg, busy] at this ⊢
        omega
      · cases h
    · cases h

theorem copies_run {σ π κ : Type} (P : Printer σ π κ) (j : PrinterFile) (t : List Event) :
    ∀ (s s' : Sys σ π κ), StopOnce s → run P s t = some s' →
      copies j s' + (droppedAlong P s t).count j = copies j s + (acceptedAlong P s t).count j := by
  induction t with
  | nil => intro s s' _ h; cases h; rfl
  | cons e t ih =>
    intro s s' hs h
    rw [run_cons] at h
    cases hstep : step P s e with
    | none => simp [hstep] at h
    | some s1 =>
      simp only [hstep] at h
      have h1 := copies_step P j s s1 e hs hstep
      have h2 := ih s1 s' (stopOnce_step P s s1 e hs hstep) h
      simp only [droppedAlong, acceptedAlong, hstep, List.count_append]
      omega

/-- **C8, amended.** No job is lost or duplicated, for every printer and every
interleaving from `NewPrintDispatcher`: for each job `j`, the copies of `j` accepted by
`Print` are, one for one, the copies that are in the pending queue, in the list cached by
`Stop`, with a helper that has not finished with its job, in the completion channel
`printedCh`, or in the completed list, together with the copies whose helper dropped them
because `Printer.Print` returned an error. -/
theorem jobs_conserved {σ π κ : Type} (P : Printer σ π κ) (p : σ) (t : List Event) (s : Sys σ π κ)
    (j : PrinterFile) (h : run P (NewPrintDispatcher p) t = some s) :
    copies j s + (droppedAlong P (NewPrintDispatcher p) t).count j =
      (acceptedAlong P (NewPrintDispatcher p) t).count j := by
  have h0 : StopOnce (NewPrintDispatcher p : Sys σ π κ) := by
    simp [StopOnce, NewPrintDispatcher]
  have h1 := copies_run P j t _ s h0 h
  have h2 : copies j (NewPrintDispatcher p : Sys σ π κ) = 0 := by
    simp [copies, NewPrintDispatcher, sliceElems]
  omega

/-! ## `Cancel` of the job in flight -/

/-- The interleaving `busyTrace` ends in `busyState`. -/
theorem busyState_reached :
    run dryPrinter (NewPrintDispatcher NewDryPrinter) busyTrace = some busyState := by decide

/-- Mutual exclusion at `busyState`: one helper inside `Print`, no permit left. -/
theorem mutual_exclusion_witness :
    run dryPrinter (NewPrintDispatcher NewDryPrinter) busyTrace = some busyState ∧
      printing busyState ≤ 1 ∧ busyState.ctx.printQuota + holders busyState = 1 :=
  ⟨busyState_reached, mutual_exclusion dryPrinter NewDryPrinter busyTrace busyState busyState_reached⟩

/-- The three methods on `stoppedState`. -/
theorem after_stop_trivial_witness :
    stoppedState.disp.stopped = 1 ∧
      run dryPrinter stoppedState [.call (.Print jobA), .client 4] = some (spawn stoppedState .printRet) ∧
      run dryPrinter stoppedState [.call .Cancel, .client 4] =
        some (spawn stoppedState (.cancelRet none)) ∧
      run dryPrinter stoppedState [.call .PrintedFile, .client 4] =
        some (spawn stoppedState (.printedRet none)) :=
  ⟨rfl, after_stop_trivial dryPrinter stoppedState jobA rfl⟩

/-- The interleaving of the average test ends in `avgState`. -/
theorem avgState_reached :
    run dryPrinter (NewPrintDispatcher NewDryPrinter)
      (busyTrace ++ [.helper 0 0, .helper 0 0, .recvPrinted, .helper 0 0, .recvFile, .helper 1 0,
        .helper 1 0, .helper 1 0, .recvPrinted, .helper 1 0, .recvFile, .helper 2 0]) =
      some avgState := by decide

/-- The average test: one and two seconds completed give 1.5 seconds. -/
theorem calcAvg_formula_witness :
    avgState.disp.stopped = 0 ∧ avgState.disp.controlClosed = false ∧ avgState.coord = .select ∧
      avgState.ctx.printed = some [jobA, jobB] ∧ [jobA, jobB] ≠ [] ∧
      run dryPrinter avgState
        [.call .CalcAvgPrintDuration, .client 3, .client 3, .action 0, .client 3] =
        some (spawn avgState (.avgRet 1500000000)) :=
  ⟨rfl, rfl, rfl, rfl, by decide,
    calcAvg_formula dryPrinter avgState [jobA, jobB] 0 rfl rfl rfl rfl (by decide)⟩

/-- The conservation law at `lostState`: the one accepted copy is in `printedCh`. -/
theorem jobs_conserved_witness :
    run dryPrinter (NewPrintDispatcher NewDryPrinter) lostTrace = some lostState ∧
      copies testDocument lostState +
          (droppedAlong dryPrinter (NewPrintDispatcher NewDryPrinter) lostTrace).count testDocument =
        (acceptedAlong dryPrinter (NewPrintDispatcher NewDryPrinter) lostTrace).count testDocument :=
  ⟨by decide, jobs_conserved dryPrinter NewDryPrinter lostTrace lostState testDocument (by decide)⟩

/-- The coordinator is parked in `stuckState`, reached after further calls. -/
theorem cancel_idle_blocks_coordinator_witness :
    run dryPrinter (NewPrintDispatcher { cancelCh := Chan.make, cancelledFile := none })
        ([.call .Cancel, .client 0, .client 0, .action 0] ++
          [.call .PrintedFile, .client 1, .call (.Print testDocument), .client 2, .client 2]) =
        some stuckState ∧
      stuckState.coord = .cancelAction 0 .sentCancel ∧ stuckState.helpers = [] ∧
      stuckState.ctx.printed = none ∧ ∀ fr ∈ stuckState.clients, fr.answered = false :=
  ⟨by decide, cancel_idle_blocks_coordinator none
    [.call .PrintedFile, .client 1, .call (.Print testDocument), .client 2, .client 2] stuckState
    (by decide)⟩

theorem settled_set {σ π κ : Type} (L : Files) (s s' : Sys σ π κ) (i : Nat) (fr fr' : Frame)
    (hs : StopSettled L s) (hfr : s.clients[i]? = some fr) (hcs : s'.clients = s.clients.set i fr')
    (heff : (s'.disp.stopped = s.disp.stopped ∧ s'.disp.notPrintedFiles = s.disp.notPrintedFiles ∧
        (preMake fr' = true → preMake fr = true) ∧ (isFetch fr' = true → isFetch fr = true)) ∨
      (fr = .stopCAS ∧ s.disp.stopped = 0 ∧ fr' = .cancelLoad true ∧
        s'.disp.notPrintedFiles = s.disp.notPrintedFiles ∧ s'.disp.stopped = 1) ∨
      (fr = .stopMake ∧ fr' = .stopFetch ∧ s'.disp.stopped = s.disp.stopped ∧
        s'.disp.notPrintedFiles = some []) ∨
      (fr = .stopFetch ∧ fr' = .stopFetch ∧ s'.disp.stopped = s.disp.stopped ∧
        s'.disp.notPrintedFiles ≠ none)) : StopSettled L s' := by
  obtain ⟨i1, i2, i3, i4⟩ := hs
  have hN := countP_set_of_get preMake fr' s.clients i fr hfr
  have hM := countP_set_of_get isFetch fr' s.clients i fr hfr
  rw [← hcs] at hN hM
  rcases heff with ⟨e1, e2, e3, e4⟩ | ⟨rfl, e0, _⟩ | ⟨rfl, _⟩ | ⟨rfl, _⟩
  · have hN' : s'.clients.countP preMake ≤ s.clients.countP preMake := by
      (cases h1 : preMake fr' <;> cases h2 : preMake fr <;> simp_all); omega
    have hM' : s'.clients.countP isFetch ≤ s.clients.countP isFetch := by
      (cases h1 : isFetch fr' <;> cases h2 : isFetch fr <;> simp_all); omega
    exact ⟨e1 ▸ i1, e2 ▸ i2, by omega, by omega⟩
  · exact absurd e0 i1
  · have hpos := countP_pos_of_get preMake s.clients i _ hfr rfl
    omega
  · have hpos := countP_pos_of_get isFetch s.clients i _ hfr rfl
    omega

theorem settled_congr {σ π κ : Type} (L : Files) (s s' : Sys σ π κ) (hs : StopSettled L s)
    (h1 : s'.clients = s.clients) (h2 : s'.disp.stopped = s.disp.stopped)
    (h3 : s'.disp.notPrintedFiles = s.disp.notPrintedFiles) : StopSettled L s' := by
  unfold StopSettled at hs ⊢
  rw [h1, h2, h3]
  exact hs

/-- Every step preserves `StopSettled`. -/
theorem settled_step {σ π κ : Type} (P : Printer σ π κ) (L : Files) (s s' : Sys σ π κ) (e : Event)
    (hs : StopSettled L s) (h : step P s e = some s') : StopSettled L s' := by
  cases e with
  | call c =>
    cases h
    obtain ⟨i1, i2, i3, i4⟩ := hs
    have hp : preMake c.entry = false := by cases c <;> rfl
    have hf : isFetch c.entry = false := by cases c <;> rfl
    have e1 : (s.clients ++ [c.entry]).countP preMake = s.clients.countP preMake := by
      rw [List.countP_append, List.countP_cons, List.countP_nil, hp]; rfl
    have e2 : (s.clients ++ [c.entry]).countP isFetch = s.clients.countP isFetch := by
      rw [List.countP_append, List.countP_cons, List.countP_nil, hf]; rfl
    unfold StopSettled
    rw [e1, e2]
    exact ⟨i1, i2, i3, i4⟩
  | client i =>
    obtain ⟨fr, fr', hfr, hcs, _, _, hcase⟩ := clientStep_cases P s s' i h
    rcases hcase with ⟨_, hd, hk | ha⟩ | ⟨hl, _⟩
    · obtain ⟨k, rfl, rfl, _⟩ := hk
      exact settled_set L s s' i _ _ hs hfr hcs
        (Or.inl ⟨by rw [hd], by rw [hd], by cases k <;> simp [preMake], by simp [isFetch]⟩)
    · obtain ⟨a, rfl, rfl, _⟩ := ha
      exact settled_set L s s' i _ _ hs hfr hcs
        (Or.inl ⟨by rw [hd], by rw [hd], by simp [preMake], by simp [isFetch]⟩)
    · exact settled_set L s s' i fr fr' hs hfr hcs (localStep_effect _ _ _ _ _ hl)
  | recvFile =>
    simp only [step] at h
    split at h
    · rename_i file d1 hsel hq
      cases h
      obtain ⟨q1, q2, _⟩ := recvFileQueue_spec _ _ _ hq
      exact settled_congr L _ _ hs rfl q1 q2
    · cases h
  | recvPrinted =>
    simp only [step] at h
    split at h
    · cases h; exact settled_congr L _ _ hs rfl rfl rfl
    · cases h
  | recvControl =>
    simp only [step] at h
    split at h
    · split at h
      · cases h; exact settled_congr L _ _ hs rfl rfl rfl
      · cases h
    · cases h
  | action alt =>
    obtain ⟨_, _, _, _, hd⟩ := actionStep_keeps P s s' alt h
    rcases actionStep_clients P s s' alt h with hc | ⟨c, fr, fr', hfr, hcs, e3, e4⟩
    · exact settled_congr L _ _ hs hc (by rw [hd]) (by rw [hd])
    · exact settled_set L s s' c fr fr' hs hfr hcs (Or.inl ⟨by rw [hd], by rw [hd], e3, e4⟩)
  | helper i alt =>
    obtain ⟨hc, hd⟩ := helperStep_keeps P s s' i alt h
    exact settled_congr L _ _ hs hc (by rw [hd]) (by rw [hd])

theorem settled_run {σ π κ : Type} (P : Printer σ π κ) (L : Files) (t : List Event) :
    ∀ (s s' : Sys σ π κ), StopSettled L s → run P s t = some s' → StopSettled L s' := by
  induction t with
  | nil => intro s s' hs h; cases h; exact hs
  | cons e t ih =>
    intro s s' hs h
    rw [run_cons] at h
    cases hstep : step P s e with
    | none => simp [hstep] at h
    | some s1 =>
      simp only [hstep] at h
      exact ih s1 s' (settled_step P L s s1 e hs hstep) h

/-- A `Stop` call on a dispatcher whose flag is set and whose cached list is `L`: the
compare-and-swap fails and the call returns `L`; nothing else changes. -/
theorem stop_again {σ π κ : Type} (P : Printer σ π κ) (s : Sys σ π κ) (L : Files)
    (hne : s.disp.stopped ≠ 0) (hL : s.disp.notPrintedFiles = L) :
    run P s [.call .Stop, .client s.clients.length] = some (spawn s (.stopRet L)) := by
  rw [run_cons, step_call]
  show run P (spawn s .stopCAS) _ = _
  rw [run_cons, step_spawn_local P s .stopCAS rfl]
  simp [localStep, hne, hL, run]

/-! ## Invariants of the running dispatcher -/

theorem recvFileQueue_chan (d d' : Disp) (file : PrinterFile)
    (h : recvFileQueue d = some (file, d')) (hc : ChanOk d) : ChanOk d' := by
  obtain ⟨c1, c2⟩ := hc
  unfold recvFileQueue at h
  split at h
  · cases h
  · rename_i f q hq
    split at h
    · rename_i hs
      cases h
      simp only [ChanOk, hq, hs, List.length_cons] at c1 ⊢
      exact ⟨by omega, fun hne => absurd rfl hne⟩
    · rename_i i g rest hs
      cases h
      have := c2 (by simp [hs])
      simp only [ChanOk, hq, List.length_cons, List.length_append, List.length_nil] at c1 this ⊢
      exact ⟨by omega, fun _ => by omega⟩

theorem localStep_inv (d d' : Disp) (i : Nat) (fr fr' : Frame)
    (h : localStep d i fr = some (d', fr')) (hc : ChanOk d)
    (hb : d.controlClosed = true → d.stopped ≠ 0) (hpre : preMake fr = true → d.stopped ≠ 0) :
    ChanOk d' ∧ (d'.controlClosed = true → d'.stopped ≠ 0) := by
  cases fr with
  | printLoad file => simp only [localStep] at h; split at h <;> cases h <;> exact ⟨hc, hb⟩
  | printSend file =>
    simp only [localStep] at h
    obtain ⟨c1, c2⟩ := hc
    split at h <;> cases h
    · rename_i hlt
      refine ⟨⟨?_, ?_⟩, hb⟩
      · simp only [List.length_append, List.length_cons, List.length_nil]; omega
      · intro hne; have := c2 hne; omega
    · rename_i hlt
      exact ⟨⟨c1, fun _ => by show d.fileQueue.length = 10; omega⟩, hb⟩
  | printParked file => simp only [localStep] at h; split at h <;> cases h; exact ⟨hc, hb⟩
  | cancelLoad k => simp only [localStep] at h; split at h <;> cases h <;> exact ⟨hc, hb⟩
  | cancelSend k => simp only [localStep] at h; split at h <;> cases h; exact ⟨hc, hb⟩
  | printedLoad a => simp only [localStep] at h; split at h <;> cases h <;> exact ⟨hc, hb⟩
  | printedSend a => simp only [localStep] at h; split at h <;> cases h; exact ⟨hc, hb⟩
  | printedRecv a buf =>
    cases buf with
    | none => simp [localStep] at h
    | some files => simp only [localStep] at h; cases h; exact ⟨hc, hb⟩
  | stopCAS =>
    simp only [localStep] at h
    split at h <;> cases h
    · exact ⟨hc, fun _ => by show (1 : Int) ≠ 0; decide⟩
    · exact ⟨hc, hb⟩
  | stopClose =>
    simp only [localStep] at h
    split at h <;> cases h
    · exact ⟨hc, hb⟩
    · exact ⟨hc, fun _ => hpre rfl⟩
  | stopMake => simp only [localStep] at h; cases h; exact ⟨hc, hb⟩
  | stopFetch =>
    simp only [localStep] at h
    split at h <;> cases h
    · rename_i file d1 hq
      obtain ⟨q1, _, q3, _⟩ := recvFileQueue_spec _ _ _ hq
      have hc1 := recvFileQueue_chan _ _ _ hq hc
      exact ⟨hc1, fun hcl => by
        have h1 : d.controlClosed = true := by rw [← q3]; exact hcl
        have h2 := hb h1
        show d1.stopped ≠ 0
        rw [q1]; exact h2⟩
    · exact ⟨hc, hb⟩
  | _ => simp [localStep] at h

/-- Every step preserves `Consistent`. -/
theorem consistent_step {σ π κ : Type} (P : Printer σ π κ) (s s' : Sys σ π κ) (e : Event)
    (hs : Consistent s) (h : step P s e = some s') : Consistent s' := by
  obtain ⟨h1, h2, h3⟩ := hs
  refine ⟨stopOnce_step P s s' e h1 h, ?_⟩
  cases e with
  | call c => cases h; exact ⟨h2, h3⟩
  | client i =>
    obtain ⟨fr, fr', hfr, _, _, _, hcase⟩ := clientStep_cases P s s' i h
    rcases hcase with ⟨_, hd, _⟩ | ⟨hl, _⟩
    · rw [hd]; exact ⟨h2, h3⟩
    · refine localStep_inv _ _ _ _ _ hl h2 h3 ?_
      intro hp h0
      have hpos := countP_pos_of_get preMake s.clients i _ hfr hp
      have := (h1.2.2 h0).1
      omega
  | recvFile =>
    simp only [step] at h
    split at h
    · rename_i file d1 hsel hq
      cases h
      obtain ⟨q1, _, q3, _⟩ := recvFileQueue_spec _ _ _ hq
      refine ⟨recvFileQueue_chan _ _ _ hq h2, fun hcl => ?_⟩
      have h4 : s.disp.controlClosed = true := by rw [← q3]; exact hcl
      have h5 := h3 h4
      show d1.stopped ≠ 0
      rw [q1]; exact h5
    · cases h
  | recvPrinted =>
    simp only [step] at h
    split at h
    · cases h; exact ⟨h2, h3⟩
    · cases h
  | recvControl =>
    simp only [step] at h
    split at h
    · split at h
      · cases h; exact ⟨h2, h3⟩
      · cases h
    · cases h
  | action alt =>
    obtain ⟨_, _, _, _, hd⟩ := actionStep_keeps P s s' alt h
    rw [hd]; exact ⟨h2, h3⟩
  | helper i alt =>
    obtain ⟨_, hd⟩ := helperStep_keeps P s s' i alt h
    rw [hd]; exact ⟨h2, h3⟩

theorem consistent_run {σ π κ : Type} (P : Printer σ π κ) (t : List Event) :
    ∀ (s s' : Sys σ π κ), Consistent s → run P s t = some s' → Consistent s' := by
  induction t with
  | nil => intro s s' hs h; cases h; exact hs
  | cons e t ih =>
    intro s s' hs h
    rw [run_cons] at h
    cases hstep : step P s e with
    | none => simp [hstep] at h
    | some s1 =>
      simp only [hstep] at h
      exact ih s1 s' (consistent_step P s s1 e hs hstep) h

theorem consistent_of_run {σ π κ : Type} (P : Printer σ π κ) (p : σ) (t : List Event)
    (s : Sys σ π κ) (h : run P (NewPrintDispatcher p) t = some s) : Consistent s := by
  refine consistent_run P t _ s ?_ h
  refine ⟨by simp [StopOnce, NewPrintDispatcher], ?_, ?_⟩
  · simp [ChanOk, NewPrintDispatcher]
  · simp [NewPrintDispatcher]

/-! ## The list returned by `Stop` -/

/-- **C3, counterexample.** With the reference worker: a `Stop` that is called while the
`Stop` of another caller is between its compare-and-swap and its `make` returns nil; the
`Stop` called after both have returned returns `[jobA]`. -/
theorem stop_overlap_differs :
    run dryPrinter (NewPrintDispatcher NewDryPrinter) racePrefix = some raceMid ∧
    raceMid.clients[2]? = some (.stopRet none) ∧
    run dryPrinter raceMid raceSuffix = some raceEnd ∧
    raceEnd.clients[3]? = some (.stopRet (some [jobA])) ∧
    (none : Files) ≠ some [jobA] := by
  refine ⟨by decide, rfl, by decide, rfl, by decide⟩

theorem stopOnce_of_run {σ π κ : Type} (P : Printer σ π κ) (p : σ) (t : List Event)
    (s : Sys σ π κ) (h : run P (NewPrintDispatcher p) t = some s) : StopOnce s :=
  (consistent_of_run P p t s h).1

/-- The return of the `Stop` that won the compare-and-swap settles the dispatcher. -/
theorem settled_of_return {σ π κ : Type} (P : Printer σ π κ) (s s' : Sys σ π κ) (k : Nat)
    (L : Files) (hs : StopOnce s) (hfr : s.clients[k]? = some .stopFetch)
    (hstep : step P s (.client k) = some s') (hret : s'.clients[k]? = some (.stopRet L)) :
    StopSettled L s' := by
  obtain ⟨_, i2, i3⟩ := hs
  have hM := countP_pos_of_get isFetch s.clients k _ hfr rfl
  have hlt : k < s.clients.length := (List.getElem?_eq_some.mp hfr).1
  obtain ⟨fr, fr', hfr2, hcs, _, _, hcase⟩ := clientStep_cases P s s' k hstep
  rw [hfr] at hfr2
  cases hfr2
  have hfr' : fr' = .stopRet L := by
    rw [hcs, List.getElem?_set_self hlt] at hret
    exact Option.some.inj hret
  subst hfr'
  have hN1 := countP_set_of_get preMake (.stopRet L) s.clients k _ hfr
  have hM1 := countP_set_of_get isFetch (.stopRet L) s.clients k _ hfr
  rw [← hcs] at hN1 hM1
  simp [preMake, isFetch] at hN1 hM1
  rcases hcase with ⟨_, _, hk | ha⟩ | ⟨hl, _⟩
  · obtain ⟨_, h1, _⟩ := hk; cases h1
  · obtain ⟨_, h1, _⟩ := ha; cases h1
  · simp only [localStep] at hl
    split at hl
    · simp at hl
    · rename_i hq
      simp only [Option.some.injEq, Prod.mk.injEq, Frame.stopRet.injEq] at hl
      obtain ⟨hd, hL⟩ := hl
      refine ⟨?_, ?_, by omega, by omega⟩
      · rw [← hd]
        intro h0
        have := (i3 h0).2.1
        omega
      · rw [← hd]; exact hL

/-- **C3, amended.** `Stop` is idempotent from the return of the call that won the
compare-and-swap.  In every interleaving from `NewPrintDispatcher`, for every printer: if
the `Stop` call that is in the drain loop returns `L`, then every `Stop` call made after
that return, whatever steps and calls happen in between, returns `L` after its failed
compare-and-swap and changes nothing: the flag, the pending queue, the cached list, the
control channel and the coordinator stay as they are; only the returned call is
recorded. -/
theorem stop_idempotent {σ π κ : Type} (P : Printer σ π κ) (p0 : σ) (t1 t2 : List Event)
    (s1 s1' s2 : Sys σ π κ) (k : Nat) (L : Files)
    (hreach : run P (NewPrintDispatcher p0) t1 = some s1)
    (hfr : s1.clients[k]? = some .stopFetch)
    (hstep : step P s1 (.client k) = some s1')
    (hret : s1'.clients[k]? = some (.stopRet L))
    (ht2 : run P s1' t2 = some s2) :
    run P s2 [.call .Stop, .client s2.clients.length] = some (spawn s2 (.stopRet L)) := by
  have hset := settled_of_return P s1 s1' k L (stopOnce_of_run P p0 t1 s1 hreach) hfr hstep hret
  obtain ⟨q1, q2, _, _⟩ := settled_run P L t2 s1' s2 hset ht2
  exact stop_again P s2 L q1 q2

/-- The `Stop` on `busyState` returns; the job in flight is printed and recorded and a
`Print` returns at once; the `Stop` called then returns the same two jobs. -/
theorem stop_idempotent_witness :
    run dryPrinter (NewPrintDispatcher NewDryPrinter)
        (busyTrace ++ [.call .Stop, .client 3, .client 3, .client 3, .client 3, .client 3,
          .client 3]) = some drainedState ∧
      drainedState.clients[3]? = some .stopFetch ∧
      step dryPrinter drainedState (.client 3) = some stoppedState ∧
      stoppedState.clients[3]? = some (.stopRet (some [jobB, jobC])) ∧
      run dryPrinter stoppedState laterTrace = some laterState ∧
      run dryPrinter laterState [.call .Stop, .client 5] =
        some (spawn laterState (.stopRet (some [jobB, jobC]))) :=
  ⟨by decide, rfl, by decide, rfl, by decide,
    stop_idempotent dryPrinter NewDryPrinter
      (busyTrace ++ [.call .Stop, .client 3, .client 3, .client 3, .client 3, .client 3, .client 3])
      laterTrace drainedState stoppedState laterState 3 (some [jobB, jobC])
      (by decide) rfl (by decide) rfl (by decide)⟩

end PrintDispatcher
